
import Mathlib

/-!
Verification development for the chat server in this repository.

The definitions below are a shallow embedding of the server side of the
repository: the in-memory store, the per-opcode conversation handlers of
`ChatServer::init` (src/unnamed/part_002), the liveness pruning, and the
text journal (`src/server/journal.cpp`) with its writer
(`Journal::commit_transaction`), parser (`Journal::next_transaction`,
`Journal::has_more_transactions`) and the recovery replay loop.

Modelling conventions:
* `Message::recipient`/`Message::sender` are pointers to `ServerUser`
  objects in the source; their only observable use is `usernames()`/
  `name()`, which yields the single user name, so messages store the
  recipient and sender names.
* Machine integers: `next_id` and socket handles are modelled as `Nat`;
  `i32` session/message ids as `Int` with `-1` sentinels as in the
  source; `u32`/`u64` wrap-around is made explicit (`u32`, `usub64`)
  where the source computes with those widths.
* Socket sends are recorded in order in a `sent` list (`Out`); a
  length-prefixed string send is a single `Out.str`.
* Conversations aborted by a mid-read timeout/drop mutate nothing and
  journal nothing in the source (all mutation happens after the last
  read), so commands model completed conversations.
-/

namespace Chat

/-- Status byte values sent to clients (`enum Error` in common.hpp). -/
inductive Err where
  | SUCCESS
  | INVALID_REQUEST
  | UNAUTHORIZED
deriving DecidableEq, Repr

/-- Journal record, as carried by the `Journal::Transaction` subclasses of
journal.hpp.  Numeric fields are written by `commit_transaction` with
printf `%u` and are modelled as `Nat`. -/
inductive JRec where
  | newUser (name : String)
  | newMessage (sender : String) (rtype : Nat) (recipient : String) (content : String)
  | deleteMessage (id : Nat)
  | updateId (id : Nat)
  | newGroup (name : String) (users : List String)
deriving DecidableEq, Repr

/-- Value of `RECIPIENT_TYPE_USER` in journal.hpp. -/
def RECIPIENT_TYPE_USER : Nat := 0

/-- Value of `CHAT_MAX_STATUS_LENGTH` in common.hpp. -/
def CHAT_MAX_STATUS_LENGTH : Nat := 32

/-- Value of `CHAT_MAX_MESSAGE_LENGTH` in common.hpp. -/
def CHAT_MAX_MESSAGE_LENGTH : Nat := 256

/-- Truncation to 32 bits, as happens when `time(nullptr)` is stored into
the `u32` heartbeat vectors and the `u32 m_last_heartbeat_time` field. -/
def u32 (n : Nat) : Nat := n % 2 ^ 32

/-- Unsigned 64-bit subtraction `a - b` as computed in
`prune_dead_connections` (`now - connection_heartbeat_times.at(i)`). -/
def usub64 (a b : Nat) : Nat := ((a % 2 ^ 64) + 2 ^ 64 - (b % 2 ^ 64)) % 2 ^ 64

/-- Conversion of an `i32` value to the `u32` the journal transactions
carry (e.g. `DeleteMessageTransaction(u32 id)` built from a received
`i32`). -/
def u32_of_int (n : Int) : Nat := (n % (2 ^ 32 : Int)).toNat

/-- In-memory user record: the fields of `class User` (user.hpp) plus the
`m_connection_fd` of `ServerUser` (server_user.hpp).  Defaults are the
member initialisers of those classes. -/
structure SUser where
  name : String
  status : String := "Offline"
  logged_in : Bool := false
  last_heartbeat_time : Nat := 0
  id : Int := -1
  connection_fd : Int := -1
deriving DecidableEq, Repr

instance : Inhabited SUser := ⟨{ name := "" }⟩

/-- In-memory group record (`class Group`, group.hpp). -/
structure SGroup where
  name : String
  users : List String
deriving DecidableEq, Repr

instance : Inhabited SGroup := ⟨{ name := "", users := [] }⟩

/-- In-memory message (`class Message`, message.hpp).  `recipient` and
`sender` are the names of the pointed-to `ServerUser`s (the only
observable data of those pointers: `usernames()` is the singleton of the
user's name). -/
structure SMsg where
  content : String
  recipient : String
  sender : String
  id : Int
deriving DecidableEq, Repr

instance : Inhabited SMsg := ⟨{ content := "", recipient := "", sender := "", id := -1 }⟩

/-- The server's global mutable state (the statics of src/unnamed/part_002):
`next_id`, `users`, `groups`, `messages`, and the parallel vectors
`poll_connection_fds` / `connection_heartbeat_times` combined into one
list of `(fd, last_heartbeat_seconds)` pairs, which the source always
updates in lockstep. -/
structure SState where
  next_id : Nat := 0
  users : List SUser := []
  groups : List SGroup := []
  messages : List SMsg := []
  conns : List (Nat × Nat) := []
deriving DecidableEq, Repr

/-- Data written to a socket.  A length-prefixed string send (4-byte size
then the bytes) is modelled as one `Out.str`. -/
inductive Out where
  | status (e : Err)
  | num (n : Int)
  | str (s : String)
deriving DecidableEq, Repr

/-- Result of one conversation handler: the new state, the journal
records committed (in commit order), and the data sent to the client. -/
structure HRes where
  state : SState
  recs : List JRec := []
  sent : List Out := []
deriving Repr

/-- Embedding of `find_user_index_by_name`: first index whose name
matches, `none` for the source's `-1`. -/
def find_user_index_by_name (us : List SUser) (name : String) : Option Nat :=
  us.findIdx? (fun u => u.name == name)

/-- Embedding of `find_group_index_by_name`. -/
def find_group_index_by_name (gs : List SGroup) (name : String) : Option Nat :=
  gs.findIdx? (fun g => g.name == name)

/-- Embedding of `find_user_index_by_id`. -/
def find_user_index_by_id (us : List SUser) (id : Int) : Option Nat :=
  us.findIdx? (fun u => u.id == id)

/-- Embedding of `find_message_index_by_id`. -/
def find_message_index_by_id (ms : List SMsg) (id : Int) : Option Nat :=
  ms.findIdx? (fun m => m.id == id)

/-- Embedding of `find_user_index_by_socket_fd` (compares the user's
`i64 connection_fd` against the `u32` socket). -/
def find_user_index_by_socket_fd (us : List SUser) (sock : Nat) : Option Nat :=
  us.findIdx? (fun u => u.connection_fd == (sock : Int))

/-- Embedding of `get_next_id`: pre-increment `next_id`, commit an
`UPDATE_ID` transaction carrying the new value, return it. -/
def get_next_id (st : SState) : Nat × SState × JRec :=
  let ret := st.next_id + 1
  (ret, { st with next_id := ret }, .updateId ret)

/-- The three-part check repeated verbatim by `logout`, `set_status`,
`send_message`, `delete_message` and `get_messages`:
`index == -1 || !users.at(index).is_logged_in() || users.at(index).connection_fd() != socket`.
Returns the user's index when the check passes (the spec's
`Store.authenticated`). -/
def auth_index (st : SState) (sid : Int) (sock : Nat) : Option Nat :=
  match find_user_index_by_id st.users sid with
  | none => none
  | some i =>
    let u := st.users.getD i default
    if u.logged_in = false then none
    else if u.connection_fd ≠ (sock : Int) then none
    else some i

/-- Embedding of `register_user` (part_002 lines 312-335).  `name` is the
received payload bytes. -/
def register_user (st : SState) (_sock : Nat) (name : String) : HRes :=
  match find_user_index_by_name st.users name with
  | some _ => { state := st, sent := [.status .INVALID_REQUEST] }
  | none =>
    { state := { st with users := st.users ++ [{ name := name }] },
      recs := [.newUser name],
      sent := [.status .SUCCESS] }

/-- Embedding of `login` (part_002 lines 419-452). -/
def login (st : SState) (sock : Nat) (name : String) (now : Nat) : HRes :=
  match find_user_index_by_name st.users name with
  | none => { state := st, sent := [.num (-1), .status .INVALID_REQUEST] }
  | some i =>
    let u := st.users.getD i default
    if u.logged_in then
      { state := st, sent := [.num (-1), .status .INVALID_REQUEST] }
    else
      let (id, st1, r) := get_next_id st
      let u' := { u with
        status := "Online", logged_in := true,
        last_heartbeat_time := u32 now, id := (id : Int),
        connection_fd := (sock : Int) }
      { state := { st1 with users := st1.users.set i u' },
        recs := [r],
        sent := [.num (id : Int), .status .SUCCESS] }

/-- Embedding of `logout` (part_002 lines 464-487).  Note that the source
clears `id` but leaves `connection_fd` untouched. -/
def logout (st : SState) (sock : Nat) (sid : Int) : HRes :=
  match auth_index st sid sock with
  | none => { state := st, sent := [.status .INVALID_REQUEST] }
  | some i =>
    let u := st.users.getD i default
    let u' := { u with
      status := "Offline", logged_in := false,
      last_heartbeat_time := 0, id := -1 }
    { state := { st with users := st.users.set i u' },
      sent := [.status .SUCCESS] }

/-- Embedding of `set_status` (part_002 lines 555-590).  `payload` is the
unframed status string read after the auth reply. -/
def set_status (st : SState) (sock : Nat) (sid : Int) (payload : String) : HRes :=
  match auth_index st sid sock with
  | none => { state := st, sent := [.status .INVALID_REQUEST] }
  | some i =>
    if payload.length = 0 ∨ payload.length > CHAT_MAX_STATUS_LENGTH then
      { state := st, sent := [.status .SUCCESS, .status .INVALID_REQUEST] }
    else
      let u := st.users.getD i default
      { state := { st with users := st.users.set i { u with status := payload } },
        sent := [.status .SUCCESS, .status .SUCCESS] }

/-- The member loop of `send_message`'s group branch: for each member in
order, append a `Message` carrying the current `message_id`, then
`message_id = get_next_id()` (which also journals `UPDATE_ID`).  When a
member does not resolve the source hits `assert(recipient_index != -1)`;
that dead branch is modelled as skipping the append. -/
def group_fanout (content sname : String) :
    List String → SState → Nat → SState × List JRec
  | [], st, _mid => (st, [])
  | m :: rest, st, mid =>
    let st1 :=
      match find_user_index_by_name st.users m with
      | none => st
      | some ri =>
        { st with messages := st.messages ++
            [{ content := content, recipient := (st.users.getD ri default).name,
               sender := sname, id := (mid : Int) }] }
    let (id2, st2, r) := get_next_id st1
    let (st3, recs) := group_fanout content sname rest st2 id2
    (st3, r :: recs)

/-- Embedding of `send_message` (part_002 lines 605-680).  The source's
single test `recipient_index == -1 || n > CHAT_MAX_MESSAGE_LENGTH`
followed by a branch on `recipient_type` is written as the equivalent
nested branches. -/
def send_message (st : SState) (sock : Nat) (sid : Int) (rtype : Nat)
    (rname : String) (content : String) : HRes :=
  match auth_index st sid sock with
  | none => { state := st, sent := [.status .INVALID_REQUEST] }
  | some i =>
    let sname := (st.users.getD i default).name
    if rtype = RECIPIENT_TYPE_USER then
      match find_user_index_by_name st.users rname with
      | none => { state := st, sent := [.status .SUCCESS, .status .INVALID_REQUEST] }
      | some ri =>
        if content.length > CHAT_MAX_MESSAGE_LENGTH then
          { state := st, sent := [.status .SUCCESS, .status .INVALID_REQUEST] }
        else
          let (mid, st1, r0) := get_next_id st
          { state := { st1 with messages := st1.messages ++
              [{ content := content, recipient := (st.users.getD ri default).name,
                 sender := sname, id := (mid : Int) }] },
            recs := [r0, .newMessage sname rtype rname content],
            sent := [.status .SUCCESS, .status .SUCCESS] }
    else
      match find_group_index_by_name st.groups rname with
      | none => { state := st, sent := [.status .SUCCESS, .status .INVALID_REQUEST] }
      | some gi =>
        if content.length > CHAT_MAX_MESSAGE_LENGTH then
          { state := st, sent := [.status .SUCCESS, .status .INVALID_REQUEST] }
        else
          let (mid, st1, r0) := get_next_id st
          let g := st.groups.getD gi default
          let (st2, frecs) := group_fanout content sname g.users st1 mid
          { state := st2,
            recs := [r0, .newMessage sname rtype rname content] ++ frecs,
            sent := [.status .SUCCESS, .status .SUCCESS] }

/-- Embedding of `delete_message` (part_002 lines 695-734).  The journaled
id is the received `i32` cast to the transaction's `u32`. -/
def delete_message (st : SState) (sock : Nat) (sid : Int) (mid : Int) : HRes :=
  match auth_index st sid sock with
  | none => { state := st, sent := [.status .INVALID_REQUEST] }
  | some i =>
    match find_message_index_by_id st.messages mid with
    | none => { state := st, sent := [.status .SUCCESS, .status .INVALID_REQUEST] }
    | some mi =>
      let m := st.messages.getD mi default
      if m.recipient = (st.users.getD i default).name then
        { state := { st with messages := st.messages.eraseIdx mi },
          recs := [.deleteMessage (u32_of_int mid)],
          sent := [.status .SUCCESS, .status .SUCCESS] }
      else
        { state := st, sent := [.status .SUCCESS, .status .UNAUTHORIZED] }

/-- Messages gathered by `get_messages`: those whose
`recipient()->usernames()` contains the caller's name, i.e. whose
recipient name equals it. -/
def messages_for_user (ms : List SMsg) (uname : String) : List SMsg :=
  ms.filter (fun m => m.recipient == uname)

/-- Embedding of `get_messages` (part_002 lines 749-795). -/
def get_messages (st : SState) (sock : Nat) (sid : Int) : HRes :=
  match auth_index st sid sock with
  | none => { state := st, sent := [.status .INVALID_REQUEST] }
  | some i =>
    let ms := messages_for_user st.messages (st.users.getD i default).name
    { state := st,
      sent := [.status .SUCCESS, .num (ms.length : Int)] ++
        (ms.map (fun m => [Out.num m.id, Out.str m.sender, Out.str m.content])).flatten ++
        [.status .SUCCESS] }

/-- Embedding of `get_users` (part_002 lines 187-231).  Note the check:
only existence of the id and `is_logged_in` are verified — unlike the
five `auth_index` handlers there is no `connection_fd == socket` test.
On success the caller's vestigial `last_heartbeat_time` is refreshed,
then the directory is sent. -/
def get_users (st : SState) (_sock : Nat) (sid : Int) (now : Nat) : HRes :=
  match find_user_index_by_id st.users sid with
  | none => { state := st, sent := [.status .INVALID_REQUEST] }
  | some i =>
    let u := st.users.getD i default
    if u.logged_in = false then
      { state := st, sent := [.status .UNAUTHORIZED] }
    else
      let us' := st.users.set i { u with last_heartbeat_time := u32 now }
      { state := { st with users := us' },
        sent := [.status .SUCCESS, .num (us'.length : Int)] ++
          (us'.map (fun v => [Out.str v.name, Out.str v.status])).flatten ++
          [.status .SUCCESS] }

/-- Embedding of `get_groups` (part_002 lines 250-300): same two-part
check as `get_users` (no socket test), no state mutation. -/
def get_groups (st : SState) (_sock : Nat) (sid : Int) : HRes :=
  match find_user_index_by_id st.users sid with
  | none => { state := st, sent := [.status .INVALID_REQUEST] }
  | some i =>
    if (st.users.getD i default).logged_in = false then
      { state := st, sent := [.status .UNAUTHORIZED] }
    else
      { state := st,
        sent := [.status .SUCCESS, .num (st.groups.length : Int)] ++
          (st.groups.map (fun g =>
            [Out.str g.name, Out.num (g.users.length : Int)] ++ g.users.map Out.str)).flatten ++
          [.status .SUCCESS] }

/-- Embedding of `register_group` (part_002 lines 350-406): members that
resolve are accumulated, any unresolved member sets `failed`; the journal
commit and the store append happen only when `failed` is false. -/
def register_group (st : SState) (_sock : Nat) (gname : String)
    (members : List String) : HRes :=
  match find_group_index_by_name st.groups gname with
  | some _ => { state := st, sent := [.status .INVALID_REQUEST] }
  | none =>
    let resolved := members.filter (fun m => (find_user_index_by_name st.users m).isSome)
    let failed := members.any (fun m => (find_user_index_by_name st.users m).isNone)
    if failed then
      { state := st, sent := [.status .SUCCESS, .status .INVALID_REQUEST] }
    else
      { state := { st with groups := st.groups ++ [{ name := gname, users := resolved }] },
        recs := [.newGroup gname resolved],
        sent := [.status .SUCCESS, .status .SUCCESS] }

/-- Embedding of `heartbeat` (part_002 lines 525-542). -/
def heartbeat (st : SState) (sock : Nat) (now : Nat) : HRes :=
  match st.conns.findIdx? (fun c => c.1 == sock) with
  | none => { state := st, sent := [.status .INVALID_REQUEST] }
  | some i =>
    let c := st.conns.getD i (0, 0)
    { state := { st with conns := st.conns.set i (c.1, u32 now) },
      sent := [.status .SUCCESS] }

/-- Embedding of `goodbye` (part_002 lines 497-514): remove the first
matching poll/heartbeat entry (in lockstep), close the socket; if no
entry matches, just close. -/
def goodbye (st : SState) (sock : Nat) : HRes :=
  match st.conns.findIdx? (fun c => c.1 == sock) with
  | none => { state := st }
  | some i => { state := { st with conns := st.conns.eraseIdx i } }

/-- Embedding of the accept branch of the event loop (part_002 lines
930-936): append `(fd, now)` to the connection tables. -/
def accept_conn (st : SState) (sock : Nat) (now : Nat) : HRes :=
  { state := { st with conns := st.conns ++ [(sock, u32 now)] } }

/-- Prune condition `now - connection_heartbeat_times.at(i) > 20`
computed in `u64` arithmetic. -/
def stale (now t : Nat) : Bool := usub64 now t > 20

/-- State mutation of `prune_dead_connections` for one stale socket: if a
user is bound to it, mark them logged out and offline and clear their
`connection_fd`.  The source does not touch the user's `id` here. -/
def mark_offline (st : SState) (fd : Nat) : SState :=
  match find_user_index_by_socket_fd st.users fd with
  | none => st
  | some j =>
    let u := st.users.getD j default
    let u' := { u with
      logged_in := false, status := "Offline", connection_fd := (-1 : Int) }
    { st with users := st.users.set j u' }

/-- The index loop of `prune_dead_connections` (part_002 lines 801-817),
including its index behaviour: removing entry `i` and then incrementing
`i` skips the entry that shifted into position `i`.  The fuel only
bounds the recursion depth: `i` grows by one per iteration while the
table never grows, so the `conns.length + 1` supplied below can never
run out before the loop condition fails. -/
def prune_loop (now : Nat) : Nat → SState → Nat → SState
  | 0, st, _ => st
  | fuel + 1, st, i =>
    if i < st.conns.length then
      if stale now (st.conns.getD i (0, 0)).2 then
        prune_loop now fuel
          (goodbye (mark_offline st (st.conns.getD i (0, 0)).1)
            (st.conns.getD i (0, 0)).1).state (i + 1)
      else
        prune_loop now fuel st (i + 1)
    else st

/-- Embedding of `prune_dead_connections`. -/
def prune_dead_connections (now : Nat) (st : SState) : SState :=
  prune_loop now (st.conns.length + 1) st 0

/-- One completed client conversation (or loop action), carrying the
socket it arrives on, the wire fields the handler reads, and the
wall-clock second for handlers that call `time(nullptr)`. -/
inductive Cmd where
  | accept (sock now : Nat)
  | register (sock : Nat) (name : String)
  | login (sock : Nat) (name : String) (now : Nat)
  | logout (sock : Nat) (sid : Int)
  | setStatus (sock : Nat) (sid : Int) (payload : String)
  | sendMessage (sock : Nat) (sid : Int) (rtype : Nat) (rname content : String)
  | deleteMessage (sock : Nat) (sid mid : Int)
  | getMessages (sock : Nat) (sid : Int)
  | getUsers (sock : Nat) (sid : Int) (now : Nat)
  | getGroups (sock : Nat) (sid : Int)
  | registerGroup (sock : Nat) (gname : String) (members : List String)
  | heartbeat (sock now : Nat)
  | goodbye (sock : Nat)
  | prune (now : Nat)
deriving DecidableEq, Repr

/-- Dispatch of the event loop (part_002 lines 955-968) plus the accept
and prune steps of each iteration. -/
def step (st : SState) : Cmd → HRes
  | .accept sock now => accept_conn st sock now
  | .register sock name => register_user st sock name
  | .login sock name now => login st sock name now
  | .logout sock sid => logout st sock sid
  | .setStatus sock sid payload => set_status st sock sid payload
  | .sendMessage sock sid rtype rname content => send_message st sock sid rtype rname content
  | .deleteMessage sock sid mid => delete_message st sock sid mid
  | .getMessages sock sid => get_messages st sock sid
  | .getUsers sock sid now => get_users st sock sid now
  | .getGroups sock sid => get_groups st sock sid
  | .registerGroup sock gname members => register_group st sock gname members
  | .heartbeat sock now => heartbeat st sock now
  | .goodbye sock => goodbye st sock
  | .prune now => { state := prune_dead_connections now st }

/-- A run: current state plus every journal record committed so far, in
order.  On a fresh server the journal file starts empty, so the file
content is exactly the encoding of `recs`. -/
structure Run where
  state : SState
  recs : List JRec
deriving Repr

/-- The state of a fresh process (all statics at their initialisers). -/
def initState : SState := {}

/-- Execute one command, accumulating its journal records. -/
def stepRun (r : Run) (c : Cmd) : Run :=
  let h := step r.state c
  { state := h.state, recs := r.recs ++ h.recs }

/-- Execute a command sequence against a fresh server. -/
def runCmds (cmds : List Cmd) : Run :=
  cmds.foldl stepRun { state := initState, recs := [] }

/-! Journal text layer (src/server/journal.cpp).  The file is a list of
characters; the read cursor is modelled by working on the remaining
suffix.  `std::isspace` in the C locale accepts exactly the six
characters below. -/

/-- Value of `RECIPIENT_TYPE_GROUP` in journal.hpp. -/
def RECIPIENT_TYPE_GROUP : Nat := 1

/-- The characters accepted by `std::isspace` in the C locale. -/
def isWs (c : Char) : Bool :=
  c = ' ' || c = '\t' || c = '\n' || c = '\u000B' || c = '\u000C' || c = '\r'

/-- Fuelled decimal printer; the fuel only bounds the recursion depth
and `natDigits` always supplies enough of it (`n` halves in value each
step, so `n + 1` steps more than suffice). -/
def natDigitsF : Nat → Nat → List Char
  | 0, _ => []
  | fuel + 1, n =>
    if n < 10 then [Nat.digitChar n]
    else natDigitsF fuel (n / 10) ++ [Nat.digitChar (n % 10)]

/-- Decimal digits of `n`, most significant first: the text printf `%u`
produces for `n`. -/
def natDigits (n : Nat) : List Char := natDigitsF (n + 1) n

/-- A string as quoted by the journal writer: `"%s"` with no escaping. -/
def qstr (s : String) : List Char := '"' :: (s.data ++ ['"'])

/-- Body text `Journal::commit_transaction` formats for one transaction
(before the 1024-byte `snprintf`/`strncat` buffer truncation). -/
def encBodyFull : JRec → List Char
  | .newUser u => "NEW_USER ".data ++ qstr u
  | .newMessage s t r c =>
    "NEW_MESSAGE ".data ++ qstr s ++ (' ' :: natDigits t) ++
      (' ' :: qstr r) ++ (' ' :: qstr c)
  | .deleteMessage n => "DELETE_MESSAGE ".data ++ natDigits n
  | .updateId n => "UPDATE_ID ".data ++ natDigits n
  | .newGroup g ms =>
    "NEW_GROUP ".data ++ qstr g ++ (' ' :: natDigits ms.length) ++
      (' ' :: (ms.map (fun m => qstr m ++ [' '])).flatten)

/-- The bytes one `commit_transaction` call writes: a leading newline
(`fputc`), then the formatted body, truncated to the 1023 characters the
1024-byte static buffer can hold. -/
def encLine (r : JRec) : List Char := '\n' :: (encBodyFull r).take 1023

/-- File content produced by committing `recs` in order to an initially
empty journal. -/
def encJournal (recs : List JRec) : List Char := (recs.map encLine).flatten

/-- Whitespace skipping of `next_non_whitespace`: the remaining input
starting at the first non-whitespace character. -/
def skipWs : List Char → List Char
  | [] => []
  | c :: t => if isWs c then skipWs t else c :: t

/-- The scan loop of `read_quoted_string`: up to `n` characters are read
looking for the closing quote; end of file or loop exhaustion is a parse
failure ("String too long"). -/
def scanQuote : Nat → List Char → Option (List Char × List Char)
  | _, [] => none
  | 0, _ => none
  | n + 1, c :: t =>
    if c = '"' then some ([], t)
    else (scanQuote n t).map (fun p => (c :: p.1, p.2))

/-- Embedding of `read_quoted_string`: skip whitespace, demand `"`, then
scan up to 1023 characters for the closing quote. -/
def readQuoted (cs : List Char) : Option (String × List Char) :=
  match skipWs cs with
  | [] => none
  | c :: t =>
    if c = '"' then (scanQuote 1023 t).map (fun p => (String.mk p.1, p.2))
    else none

/-- The operation-name scan of `next_transaction`: read until whitespace
(consuming it).  Hitting end of file or exhausting the 1023-byte buffer
leaves the buffer without a matching operation name, i.e. a parse
failure. -/
def scanTok : Nat → List Char → Option (List Char × List Char)
  | _, [] => none
  | 0, _ => none
  | n + 1, c :: t =>
    if isWs c then some ([], t)
    else (scanTok n t).map (fun p => (c :: p.1, p.2))

/-- Read the operation token: first non-whitespace character, then up to
1022 further characters until whitespace. -/
def readTokenC (cs : List Char) : Option (List Char × List Char) :=
  match skipWs cs with
  | [] => none
  | c :: t => (scanTok 1022 t).map (fun p => (c :: p.1, p.2))

/-- The number-token scan of `read_u32`: read until whitespace or end of
file (the loop tests `buffer[i] == EOF`); exhausting the buffer is a
failure. -/
def scanNumTok : Nat → List Char → Option (List Char × List Char)
  | _, [] => some ([], [])
  | 0, _ => none
  | n + 1, c :: t =>
    if isWs c then some ([], t)
    else (scanNumTok n t).map (fun p => (c :: p.1, p.2))

/-- Maximal leading run of decimal digits. -/
def digitsPrefix : List Char → List Char
  | [] => []
  | c :: t => if c.isDigit then c :: digitsPrefix t else []

/-- Value of a list of decimal digits. -/
def digitsVal (ds : List Char) : Nat :=
  ds.foldl (fun a c => a * 10 + (c.toNat - 48)) 0

/-- Sentinel `INVALID_U32 = ~0` of journal.cpp. -/
def INVALID_U32 : Nat := 2 ^ 32 - 1

/-- Embedding of `std::strtol(buffer, &end, 10)` on the scanned token,
cast to `u32`: an optional sign, then a maximal digit run (none means
`end == buffer`, a parse failure); the 32-bit `long` saturates at
`LONG_MAX`/`LONG_MIN` and the cast to `u32` wraps.  The token never
starts with whitespace here, since the scan starts at a non-whitespace
character. -/
def strtol_u32 (tok : List Char) : Option Nat :=
  match tok with
  | [] => none
  | c :: t =>
    if c = '-' then
      let ds := digitsPrefix t
      if ds.isEmpty then none
      else some ((2 ^ 32 - min (digitsVal ds) (2 ^ 31)) % 2 ^ 32)
    else if c = '+' then
      let ds := digitsPrefix t
      if ds.isEmpty then none
      else some (min (digitsVal ds) (2 ^ 31 - 1))
    else
      let ds := digitsPrefix (c :: t)
      if ds.isEmpty then none
      else some (min (digitsVal ds) (2 ^ 31 - 1))

/-- Embedding of `read_u32`: scan a token (first char via
`next_non_whitespace`), `strtol` it, and treat the sentinel value
`INVALID_U32` itself as a failure, exactly as the callers do. -/
def readU32 (cs : List Char) : Option (Nat × List Char) :=
  match skipWs cs with
  | [] => none
  | c :: t =>
    match scanNumTok 1022 t with
    | none => none
    | some (ds, rest) =>
      match strtol_u32 (c :: ds) with
      | none => none
      | some v => if v = INVALID_U32 then none else some (v, rest)

/-- The member loop of the `NEW_GROUP` branch of `next_transaction`:
`user_count` quoted strings. -/
def readMembers : Nat → List Char → Option (List String × List Char)
  | 0, cs => some ([], cs)
  | n + 1, cs =>
    match readQuoted cs with
    | none => none
    | some (m, r) =>
      match readMembers n r with
      | none => none
      | some (ms, r') => some (m :: ms, r')

/-- Parse one transaction from the remaining file text: the body of
`Journal::next_transaction` (without the invalid-flag guard, handled by
`next_transaction` below).  `none` is the `goto fail` path. -/
def nextText (cs : List Char) : Option (JRec × List Char) :=
  match readTokenC cs with
  | none => none
  | some (tok, r0) =>
    if tok = "NEW_USER".data then
      (readQuoted r0).map (fun p => (.newUser p.1, p.2))
    else if tok = "UPDATE_ID".data then
      (readU32 r0).map (fun p => (.updateId p.1, p.2))
    else if tok = "NEW_MESSAGE".data then
      match readQuoted r0 with
      | none => none
      | some (s, r1) =>
        match readU32 r1 with
        | none => none
        | some (t, r2) =>
          match readQuoted r2 with
          | none => none
          | some (rn, r3) =>
            match readQuoted r3 with
            | none => none
            | some (c, r4) => some (.newMessage s t rn c, r4)
    else if tok = "DELETE_MESSAGE".data then
      (readU32 r0).map (fun p => (.deleteMessage p.1, p.2))
    else if tok = "NEW_GROUP".data then
      match readQuoted r0 with
      | none => none
      | some (g, r1) =>
        match readU32 r1 with
        | none => none
        | some (cnt, r2) =>
          match readMembers cnt r2 with
          | none => none
          | some (ms, r3) => some (.newGroup g ms, r3)
    else none

/-- Embedding of `Journal::has_more_transactions` on the remaining text:
some non-whitespace byte remains. -/
def hasMoreText (cs : List Char) : Bool := !(skipWs cs).isEmpty

/-- The recovery `apply` switch of `ChatServer::init` (part_002 lines
834-888).  Branches the source guards with `assert(... != -1)` — which
can only fail on a journal the server itself did not produce — are
modelled as skipping the record. -/
def replay_fanout (content sname : String) : List String → SState → SState
  | [], st => st
  | m :: rest, st =>
    let st1 :=
      match find_user_index_by_name st.users m with
      | none => st
      | some ui =>
        { st with
          messages := st.messages ++
            [{ content := content, recipient := (st.users.getD ui default).name,
               sender := sname, id := (st.next_id : Int) }],
          next_id := st.next_id + 1 }
    replay_fanout content sname rest st1

/-- Apply one recovered transaction to the store, as `ChatServer::init`
does.  Note that a direct (`RECIPIENT_TYPE_USER`) message is stored with
the current `next_id` without incrementing it, while the group branch
uses `next_id++` per member. -/
def applyRec (st : SState) : JRec → SState
  | .newUser u => { st with users := st.users ++ [{ name := u }] }
  | .newMessage s t r c =>
    match find_user_index_by_name st.users s with
    | none => st
    | some si =>
      let sname := (st.users.getD si default).name
      if t = RECIPIENT_TYPE_USER then
        match find_user_index_by_name st.users r with
        | none => st
        | some ri =>
          { st with messages := st.messages ++
              [{ content := c, recipient := (st.users.getD ri default).name,
                 sender := sname, id := (st.next_id : Int) }] }
      else if t = RECIPIENT_TYPE_GROUP then
        match find_group_index_by_name st.groups r with
        | none => st
        | some gi => replay_fanout c sname (st.groups.getD gi default).users st
      else st
  | .deleteMessage id =>
    match find_message_index_by_id st.messages (id : Int) with
    | none => st
    | some mi => { st with messages := st.messages.eraseIdx mi }
  | .updateId id => { st with next_id := id }
  | .newGroup g ms => { st with groups := st.groups ++ [{ name := g, users := ms }] }

/-- The recovery loop of `ChatServer::init` (lines 827-891): while
`has_more_transactions`, parse the next transaction and apply it; a
parse failure stops recovery (and, in the source, marks the journal
invalid).  The fuel only bounds the recursion depth: each successful
parse consumes at least one character (`nextText_consumes` below), so
the `cs.length + 1` supplied by `replayFrom` can never run out before
the end of the file. -/
def replayFuel : Nat → SState → List Char → SState
  | 0, st, _ => st
  | fuel + 1, st, cs =>
    if (skipWs cs).isEmpty then st
    else
      match nextText cs with
      | none => st
      | some (r, rest) => replayFuel fuel (applyRec st r) rest

/-- Recovery of store `st` from remaining journal text `cs`. -/
def replayFrom (st : SState) (cs : List Char) : SState :=
  replayFuel (cs.length + 1) st cs

/-- State of a fresh process after recovery from journal text `cs`. -/
def replayJournal (cs : List Char) : SState := replayFrom initState cs

/-! Journal handle state for the invalid-flag claims: the full file text,
the read cursor, and the `invalid_file` flag of journal.cpp. -/

/-- The statics of journal.cpp: the open file's content, the stdio
cursor, and `invalid_file`. -/
structure JState where
  text : List Char
  pos : Nat
  invalid : Bool
deriving DecidableEq, Repr

/-- Remaining file content from the cursor. -/
def jAhead (s : JState) : List Char := s.text.drop s.pos

/-- Embedding of `Journal::has_more_transactions`: guarded by
`invalid_file`; otherwise peek past whitespace and restore the cursor. -/
def has_more_transactions (s : JState) : Bool :=
  if s.invalid then false
  else hasMoreText (jAhead s)

/-- Embedding of `Journal::next_transaction`: guarded by `invalid_file`;
a parse failure sets the flag (the cursor position after a failed parse
is never observable again, since every operation is guarded by the
flag). -/
def next_transaction (s : JState) : Option JRec × JState :=
  if s.invalid then (none, s)
  else
    match nextText (jAhead s) with
    | none => (none, { s with invalid := true })
    | some (r, rest) => (some r, { s with pos := s.text.length - rest.length })

/-- Embedding of `Journal::commit_transaction`: dropped with a logged
error when `invalid_file` is set; otherwise the newline and body are
written at the cursor, which the preceding `assert(!has_more_transactions())`
guarantees to be the end of the file, and the cursor ends after the
written bytes. -/
def commit_transaction (s : JState) (r : JRec) : JState :=
  if s.invalid then s
  else { text := s.text ++ encLine r, pos := s.text.length + (encLine r).length,
         invalid := false }

/-! Claim C4. -/

/-- Record-kind tests used to count journal records. -/
def isUpdateIdRec : JRec → Bool
  | .updateId _ => true
  | _ => false

def isNewMessageRec : JRec → Bool
  | .newMessage _ _ _ _ => true
  | _ => false

/-! Wellformedness of strings and records with respect to the journal
text format: the format has no escaping, so faithful read-back needs
quote-free strings, and the 1024-byte format buffer and read buffers
bound the sizes. -/

/-- A string the quoting scheme can represent (no embedded `"`). -/
def noQuote (s : String) : Prop := ∀ c ∈ s.data, c ≠ '"'

instance : DecidablePred noQuote := fun s => List.decidableBAll _ s.data

/-- A name-like string: quote-free and of bounded length. -/
def wfStr (s : String) : Prop := noQuote s ∧ s.length ≤ 240

/-- Encoding of a group's member list inside a NEW_GROUP record. -/
def membersEnc (ms : List String) : List Char :=
  (ms.map (fun m => qstr m ++ [' '])).flatten

/-- Records that survive the journal's text round trip: quote-free
bounded strings, recipient type 0 or 1, numeric values at most `B`
(instantiated with the final ID-counter value, which bounds every
journaled number of a run), and a NEW_GROUP body that fits the
1024-byte format buffer. -/
def wfRecB (B : Nat) : JRec → Prop
  | .newUser u => wfStr u
  | .newMessage s t r c => wfStr s ∧ wfStr r ∧ noQuote c ∧ c.length ≤ 256 ∧ t ≤ 1
  | .deleteMessage n => n ≤ B
  | .updateId n => n ≤ B
  | .newGroup g ms =>
      wfStr g ∧ (∀ m ∈ ms, noQuote m ∧ m.length ≤ 240) ∧
      (encBodyFull (.newGroup g ms)).length ≤ 1023

/-! Simulation between a live run and recovery replay of its journal. -/

/-- Closed form of the per-member messages a group fan-out appends,
starting at id `k` (used by both the live loop and the replay loop). -/
def fanoutMsgs (content sname : String) (us : List SUser) :
    List String → Nat → List SMsg
  | [], _ => []
  | m :: rest, k =>
    (match find_user_index_by_name us m with
     | none => []
     | some ri => [⟨content, (us.getD ri default).name, sname, (k : Int)⟩]) ++
      fanoutMsgs content sname us rest (k + 1)

/-- The `UPDATE_ID` records committed by a fan-out over `n` members
starting after id `mid`. -/
def updRecs (mid : Nat) : Nat → List JRec
  | 0 => []
  | n + 1 => .updateId (mid + 1) :: updRecs (mid + 1) n

/-- A user as recovery reconstructs it: only the name survives the
journal, all session fields return to their initialisers. -/
def freshUser (u : SUser) : SUser := { name := u.name }

/-- The store a fresh process rebuilds from the abstract records of a
run (the text layer is connected separately by `replay_encJournal`). -/
def replayOf (r : Run) : SState := r.recs.foldl applyRec initState

/-- Wire inputs that survive the journal's printf/scan round trip:
quote-free bounded strings wherever the handler may journal them, a
recipient type the recovery switch recognises, and a group body that
fits the 1024-byte format buffer. -/
def wfCmd : Cmd → Prop
  | .register _ name => wfStr name
  | .sendMessage _ _ rtype _ content => noQuote content ∧ rtype ≤ 1
  | .registerGroup _ gname members =>
      wfStr gname ∧ (∀ m ∈ members, noQuote m ∧ m.length ≤ 240) ∧
      (encBodyFull (.newGroup gname members)).length ≤ 1023
  | _ => True

instance : DecidablePred wfStr := fun s =>
  inferInstanceAs (Decidable (noQuote s ∧ s.length ≤ 240))

instance : DecidablePred wfCmd := fun c =>
  match c with
  | .accept _ _ => inferInstanceAs (Decidable True)
  | .register _ name => inferInstanceAs (Decidable (wfStr name))
  | .login _ _ _ => inferInstanceAs (Decidable True)
  | .logout _ _ => inferInstanceAs (Decidable True)
  | .setStatus _ _ _ => inferInstanceAs (Decidable True)
  | .sendMessage _ _ rtype _ content =>
      inferInstanceAs (Decidable (noQuote content ∧ rtype ≤ 1))
  | .deleteMessage _ _ _ => inferInstanceAs (Decidable True)
  | .getMessages _ _ => inferInstanceAs (Decidable True)
  | .getUsers _ _ _ => inferInstanceAs (Decidable True)
  | .getGroups _ _ => inferInstanceAs (Decidable True)
  | .registerGroup _ gname members =>
      inferInstanceAs (Decidable (wfStr gname ∧
        (∀ m ∈ members, noQuote m ∧ m.length ≤ 240) ∧
        (encBodyFull (.newGroup gname members)).length ≤ 1023))
  | .heartbeat _ _ => inferInstanceAs (Decidable True)
  | .goodbye _ => inferInstanceAs (Decidable True)
  | .prune _ => inferInstanceAs (Decidable True)

/-- The simulation invariant tying a live run to the replay of its
records: recovery rebuilds the same user list up to session fields, the
same groups, messages and counter; every committed record is wellformed
for the global id bound `B`; and the live store keeps its own
bookkeeping facts (wellformed names, resolvable group members, message
ids below the counter). -/
def simInv (B : Nat) (r : Run) : Prop :=
  (replayOf r).users = r.state.users.map freshUser ∧
  (replayOf r).groups = r.state.groups ∧
  (replayOf r).messages = r.state.messages ∧
  (replayOf r).next_id = r.state.next_id ∧
  (∀ rec ∈ r.recs, wfRecB B rec) ∧
  (∀ n ∈ r.state.users.map (fun u => u.name), wfStr n) ∧
  (∀ g ∈ r.state.groups, wfStr g.name ∧
    ∀ m ∈ g.users, m ∈ r.state.users.map (fun u => u.name)) ∧
  (∀ m ∈ r.state.messages, 0 ≤ m.id ∧ m.id ≤ (r.state.next_id : Int))

/-- A run registering a name that contains a double quote. -/
def c1cmds : List Cmd := [.register 0 "a\"b"]

/-- A wellformed run: two registrations, a login, a direct send, a
logout. -/
def c1wit : List Cmd :=
  [.register 7 "alice", .register 7 "bob", .login 7 "alice" 0,
   .sendMessage 7 1 0 "bob" "hi", .logout 7 1]

/-- A run whose journal is corrupted by a quoted name, then allocates an
id at login. -/
def c8cmds : List Cmd := [.register 0 "a\"b", .login 0 "a\"b" 0]

/-- A wellformed run allocating one id. -/
def c8wit : List Cmd := [.register 5 "carol", .login 5 "carol" 3]

/-- A wellformed run with one registration. -/
def c9wit : List Cmd := [.register 2 "dave"]

theorem goodbye_conns_length_le (st : SState) (sock : Nat) :
    (goodbye st sock).state.conns.length ≤ st.conns.length := by
  unfold goodbye
  cases h : st.conns.findIdx? (fun c => c.1 == sock) with
  | none => simp
  | some i =>
    simp only [List.length_eraseIdx]
    split <;> omega

theorem mark_offline_conns (st : SState) (fd : Nat) :
    (mark_offline st fd).conns = st.conns := by
  unfold mark_offline
  cases find_user_index_by_socket_fd st.users fd <;> simp

/-! General helper lemmas about `findIdx?` and `set`, used throughout. -/

theorem findIdx?_lt {α} {p : α → Bool} {l : List α} {i : Nat}
    (h : l.findIdx? p = some i) : i < l.length := by
  rw [List.findIdx?_eq_some_iff_findIdx_eq] at h
  exact h.1

theorem findIdx?_getD {α} {p : α → Bool} {l : List α} {i : Nat} (d : α)
    (h : l.findIdx? p = some i) : p (l.getD i d) = true := by
  rw [List.findIdx?_eq_some_iff_findIdx_eq] at h
  obtain ⟨hlt, hidx⟩ := h
  have hg := @List.findIdx_getElem _ p l (by rw [hidx]; exact hlt)
  rw [List.getD_eq_getElem?_getD, List.getElem?_eq_getElem hlt]
  simpa [hidx] using hg

theorem findIdx?_getD_of_lt {α} {p : α → Bool} {l : List α} {i : Nat} (d : α) {k : Nat}
    (h : l.findIdx? p = some i) (hk : k < i) : p (l.getD k d) = false := by
  rw [List.findIdx?_eq_some_iff_findIdx_eq] at h
  obtain ⟨hlt, hidx⟩ := h
  have hk2 : k < l.length := lt_trans (hidx ▸ hk) hlt
  have hg := @List.not_of_lt_findIdx _ p l k (hidx ▸ hk)
  rw [List.getD_eq_getElem?_getD, List.getElem?_eq_getElem hk2]
  simpa using hg

theorem map_set_getD {α β} (f : α → β) (d : α) (l : List α) (j : Nat) (a : α)
    (h : f a = f (l.getD j d)) : (l.set j a).map f = l.map f := by
  induction l generalizing j with
  | nil => simp
  | cons x t ih =>
    cases j with
    | zero => simpa using h
    | succ n =>
      simp only [List.set_cons_succ, List.map_cons, List.cons.injEq, true_and]
      exact ih n (by simpa using h)

/-! Claim C5. -/

/-- C5: for every REGISTER_GROUP request whose member list contains at
least one name that resolves to no existing user, the server replies
INVALID_REQUEST (as final status) and commits no partial state: the
store is unchanged — in particular no group is added — and no journal
record (in particular no NEW_GROUP) is appended. -/
theorem C5_register_group_rejects_unknown_member (st : SState) (sock : Nat)
    (gname : String) (members : List String)
    (hbad : ∃ m ∈ members, find_user_index_by_name st.users m = none) :
    (register_group st sock gname members).sent.getLast? =
        some (.status .INVALID_REQUEST) ∧
    (register_group st sock gname members).state = st ∧
    (register_group st sock gname members).recs = [] := by
  unfold register_group
  cases hg : find_group_index_by_name st.groups gname with
  | some i => simp
  | none =>
    obtain ⟨m, hm, hnone⟩ := hbad
    have hfail : members.any (fun x => (find_user_index_by_name st.users x).isNone) = true := by
      rw [List.any_eq_true]
      exact ⟨m, hm, by simp [hnone]⟩
    simp [hfail]

/-- Witness for C5 at a concrete input: one registered user `alice`, a
group request naming the unknown `carol`. -/
theorem C5_witness :
    (∃ m ∈ ["alice", "carol"],
        find_user_index_by_name [{ name := "alice" }] m = none) ∧
    (register_group { users := [{ name := "alice" }] } 1 "g" ["alice", "carol"]).sent.getLast? =
        some (.status .INVALID_REQUEST) ∧
    (register_group { users := [{ name := "alice" }] } 1 "g" ["alice", "carol"]).state =
        { users := [{ name := "alice" }] } ∧
    (register_group { users := [{ name := "alice" }] } 1 "g" ["alice", "carol"]).recs = [] := by
  refine ⟨⟨"carol", by decide, by decide⟩, ?_⟩
  exact C5_register_group_rejects_unknown_member _ 1 "g" _ ⟨"carol", by decide, by decide⟩

/-! Claim C6. -/

/-- C6: for an authenticated caller and an existing message, DELETE_MESSAGE
replies UNAUTHORIZED with the store and journal untouched when the
message's first recipient name differs from the caller's name; when it
equals the caller's name, a DELETE_MESSAGE record is journaled, the
message is removed, and the reply is SUCCESS. -/
theorem C6_delete_message_recipient_only (st : SState) (sock : Nat) (sid mid : Int)
    (i mi : Nat)
    (hauth : auth_index st sid sock = some i)
    (hfind : find_message_index_by_id st.messages mid = some mi) :
    ((st.messages.getD mi default).recipient ≠ (st.users.getD i default).name →
      (delete_message st sock sid mid).sent = [.status .SUCCESS, .status .UNAUTHORIZED] ∧
      (delete_message st sock sid mid).state = st ∧
      (delete_message st sock sid mid).recs = []) ∧
    ((st.messages.getD mi default).recipient = (st.users.getD i default).name →
      (delete_message st sock sid mid).sent = [.status .SUCCESS, .status .SUCCESS] ∧
      (delete_message st sock sid mid).state.messages = st.messages.eraseIdx mi ∧
      (delete_message st sock sid mid).recs = [.deleteMessage (u32_of_int mid)]) := by
  unfold delete_message
  rw [hauth, hfind]
  constructor
  · intro hne
    simp only [List.getD_eq_getElem?_getD] at hne
    simp [hne]
  · intro heq
    simp only [List.getD_eq_getElem?_getD] at heq
    simp [heq]

/-- Witness for C6 at a concrete input: `bob` (authenticated, session 7
on socket 2) attempting to delete the message addressed to `alice`
(UNAUTHORIZED path), and `alice` (session 5 on socket 1) deleting it
(SUCCESS path). -/
theorem C6_witness :
    (delete_message
        { users := [⟨"alice", "Online", true, 0, 5, 1⟩, ⟨"bob", "Online", true, 0, 7, 2⟩],
          messages := [⟨"hi", "alice", "bob", 9⟩] } 2 7 9).sent =
      [.status .SUCCESS, .status .UNAUTHORIZED] ∧
    (delete_message
        { users := [⟨"alice", "Online", true, 0, 5, 1⟩, ⟨"bob", "Online", true, 0, 7, 2⟩],
          messages := [⟨"hi", "alice", "bob", 9⟩] } 2 7 9).state =
      { users := [⟨"alice", "Online", true, 0, 5, 1⟩, ⟨"bob", "Online", true, 0, 7, 2⟩],
        messages := [⟨"hi", "alice", "bob", 9⟩] } ∧
    (delete_message
        { users := [⟨"alice", "Online", true, 0, 5, 1⟩, ⟨"bob", "Online", true, 0, 7, 2⟩],
          messages := [⟨"hi", "alice", "bob", 9⟩] } 1 5 9).sent =
      [.status .SUCCESS, .status .SUCCESS] := by
  refine ⟨?_, ?_, ?_⟩
  · exact ((C6_delete_message_recipient_only _ 2 7 9 1 0 (by decide) (by decide)).1
      (by decide)).1
  · exact (((C6_delete_message_recipient_only _ 2 7 9 1 0 (by decide) (by decide)).1
      (by decide)).2).1
  · exact ((C6_delete_message_recipient_only _ 1 5 9 0 0 (by decide) (by decide)).2
      (by decide)).1

/-! Claim C7. -/

/-- C7: after any format error in `next_transaction` the journal is
permanently invalid: the failing call sets the flag, and on any invalid
journal every `next_transaction` returns nothing (and changes nothing),
every `has_more_transactions` returns false, and every
`commit_transaction` leaves the journal file unchanged. -/
theorem C7_journal_invalid_is_terminal :
    (∀ s : JState, s.invalid = false → (next_transaction s).1 = none →
      (next_transaction s).2.invalid = true) ∧
    (∀ s : JState, s.invalid = true →
      next_transaction s = (none, s) ∧
      has_more_transactions s = false ∧
      ∀ r, commit_transaction s r = s) := by
  constructor
  · intro s hs h
    unfold next_transaction at h ⊢
    rw [if_neg (by simp [hs])] at h ⊢
    cases hn : nextText (jAhead s) with
    | none => simp [hn]
    | some p => rw [hn] at h; simp at h
  · intro s hs
    refine ⟨?_, ?_, ?_⟩
    · unfold next_transaction
      rw [if_pos hs]
    · unfold has_more_transactions
      rw [if_pos hs]
    · intro r
      unfold commit_transaction
      rw [if_pos hs]

/-- Witness for C7 at concrete inputs: the journal text `BOGUS x` fails
to parse and sets the invalid flag; on an invalid journal, reads,
has-more and a sample append are all inert. -/
theorem C7_witness :
    ((⟨"BOGUS x".data, 0, false⟩ : JState).invalid = false ∧
     (next_transaction ⟨"BOGUS x".data, 0, false⟩).1 = none ∧
     (next_transaction ⟨"BOGUS x".data, 0, false⟩).2.invalid = true) ∧
    (next_transaction ⟨"BOGUS x".data, 0, true⟩ = (none, ⟨"BOGUS x".data, 0, true⟩) ∧
     has_more_transactions ⟨"BOGUS x".data, 0, true⟩ = false ∧
     commit_transaction ⟨"BOGUS x".data, 0, true⟩ (.updateId 1) =
       ⟨"BOGUS x".data, 0, true⟩) := by
  refine ⟨⟨rfl, by decide, ?_⟩, ?_, ?_, ?_⟩
  · exact C7_journal_invalid_is_terminal.1 _ rfl (by decide)
  · exact (C7_journal_invalid_is_terminal.2 _ rfl).1
  · exact (C7_journal_invalid_is_terminal.2 _ rfl).2.1
  · exact (C7_journal_invalid_is_terminal.2 _ rfl).2.2 _

/-! Claim C10. -/

/-- C10: for an authenticated sender and an existing user recipient,
SEND_MESSAGE accepts empty content — it replies SUCCESS and stores a
message with empty content and a fresh id — and more generally accepts
any content up to MAX_MESSAGE_LENGTH = 256 while rejecting only longer
content with INVALID_REQUEST; SET_STATUS by the same authenticated user
rejects a zero-length payload with INVALID_REQUEST and leaves the state
unchanged. -/
theorem C10_empty_content_accepted_empty_status_rejected (st : SState) (sock : Nat)
    (sid : Int) (rname : String) (i ri : Nat)
    (hauth : auth_index st sid sock = some i)
    (hr : find_user_index_by_name st.users rname = some ri) :
    ((send_message st sock sid RECIPIENT_TYPE_USER rname "").sent =
        [.status .SUCCESS, .status .SUCCESS] ∧
      (send_message st sock sid RECIPIENT_TYPE_USER rname "").state.messages =
        st.messages ++
          [{ content := "", recipient := (st.users.getD ri default).name,
             sender := (st.users.getD i default).name,
             id := ((st.next_id + 1 : Nat) : Int) }]) ∧
    (∀ content : String, content.length ≤ CHAT_MAX_MESSAGE_LENGTH →
      (send_message st sock sid RECIPIENT_TYPE_USER rname content).sent =
        [.status .SUCCESS, .status .SUCCESS]) ∧
    (∀ content : String, content.length > CHAT_MAX_MESSAGE_LENGTH →
      (send_message st sock sid RECIPIENT_TYPE_USER rname content).sent =
        [.status .SUCCESS, .status .INVALID_REQUEST] ∧
      (send_message st sock sid RECIPIENT_TYPE_USER rname content).state = st ∧
      (send_message st sock sid RECIPIENT_TYPE_USER rname content).recs = []) ∧
    ((set_status st sock sid "").sent = [.status .SUCCESS, .status .INVALID_REQUEST] ∧
     (set_status st sock sid "").state = st) := by
  refine ⟨?_, ?_, ?_, ?_⟩
  · unfold send_message
    rw [hauth]
    dsimp only
    rw [if_pos rfl, hr]
    dsimp only
    rw [if_neg (by simp [CHAT_MAX_MESSAGE_LENGTH])]
    exact ⟨rfl, by simp [get_next_id]⟩
  · intro content hc
    unfold send_message
    rw [hauth]
    dsimp only
    rw [if_pos rfl, hr]
    dsimp only
    rw [if_neg (by omega)]
  · intro content hc
    unfold send_message
    rw [hauth]
    dsimp only
    rw [if_pos rfl, hr]
    dsimp only
    rw [if_pos hc]
    exact ⟨rfl, rfl, rfl⟩
  · unfold set_status
    rw [hauth]
    dsimp only
    rw [if_pos (by simp)]
    exact ⟨rfl, rfl⟩

/-- Witness for C10 at a concrete input: `alice` (session 5, socket 1)
sends herself an empty message and attempts an empty status. -/
theorem C10_witness :
    (send_message { next_id := 5, users := [⟨"alice", "Online", true, 0, 5, 1⟩] }
        1 5 RECIPIENT_TYPE_USER "alice" "").sent =
      [.status .SUCCESS, .status .SUCCESS] ∧
    (send_message { next_id := 5, users := [⟨"alice", "Online", true, 0, 5, 1⟩] }
        1 5 RECIPIENT_TYPE_USER "alice" "").state.messages =
      [{ content := "", recipient := "alice", sender := "alice", id := 6 }] ∧
    (set_status { next_id := 5, users := [⟨"alice", "Online", true, 0, 5, 1⟩] } 1 5 "").sent =
      [.status .SUCCESS, .status .INVALID_REQUEST] := by
  refine ⟨?_, ?_, ?_⟩
  · exact (C10_empty_content_accepted_empty_status_rejected _ 1 5 "alice" 0 0
      (by decide) (by decide)).1.1
  · have h := (C10_empty_content_accepted_empty_status_rejected
      { next_id := 5, users := [⟨"alice", "Online", true, 0, 5, 1⟩] } 1 5 "alice" 0 0
      (by decide) (by decide)).1.2
    simpa using h
  · exact (C10_empty_content_accepted_empty_status_rejected _ 1 5 "alice" 0 0
      (by decide) (by decide)).2.2.2.1

/-! Claim C2: lemmas about the prune sweep. -/

theorem goodbye_users (st : SState) (sock : Nat) :
    (goodbye st sock).state.users = st.users := by
  unfold goodbye
  cases st.conns.findIdx? (fun c => c.1 == sock) <;> rfl

theorem mark_offline_ids (st : SState) (fd : Nat) :
    (mark_offline st fd).users.map (fun u => u.id) = st.users.map (fun u => u.id) := by
  unfold mark_offline
  cases h : find_user_index_by_socket_fd st.users fd with
  | none => rfl
  | some j =>
    dsimp only
    exact map_set_getD _ default _ j _ rfl

/-- The prune sweep never touches any user's session id. -/
theorem prune_loop_ids (now : Nat) :
    ∀ (fuel : Nat) (st : SState) (i : Nat),
      (prune_loop now fuel st i).users.map (fun u => u.id) =
        st.users.map (fun u => u.id) := by
  intro fuel
  induction fuel with
  | zero => intro st i; rfl
  | succ n ih =>
    intro st i
    unfold prune_loop
    split
    · split
      · rw [ih, goodbye_users, mark_offline_ids]
      · rw [ih]
    · rfl

theorem mark_offline_getD_of_cleared (st : SState) (fd : Nat) (j : Nat)
    (hj : (st.users.getD j default).connection_fd = -1) :
    (mark_offline st fd).users.getD j default = st.users.getD j default := by
  unfold mark_offline
  cases h : find_user_index_by_socket_fd st.users fd with
  | none => rfl
  | some j' =>
    dsimp only
    have hne : j' ≠ j := by
      intro he
      have hp := findIdx?_getD default h
      rw [he] at hp
      simp only [beq_iff_eq] at hp
      rw [hj] at hp
      omega
    simp only [List.getD_eq_getElem?_getD]
    rw [List.getElem?_set_ne hne]

/-- A user already marked offline (cleared connection) is untouched by
the rest of the sweep. -/
theorem prune_loop_preserves_cleared (now : Nat) :
    ∀ (fuel : Nat) (st : SState) (i : Nat) (j : Nat),
      (st.users.getD j default).connection_fd = -1 →
      (prune_loop now fuel st i).users.getD j default = st.users.getD j default := by
  intro fuel
  induction fuel with
  | zero => intro st i j _; rfl
  | succ n ih =>
    intro st i j hj
    unfold prune_loop
    split
    · split
      · have husers :
            (goodbye (mark_offline st ((st.conns.getD i (0, 0)).1))
                ((st.conns.getD i (0, 0)).1)).state.users =
              (mark_offline st ((st.conns.getD i (0, 0)).1)).users :=
          goodbye_users _ _
        have hmo := mark_offline_getD_of_cleared st ((st.conns.getD i (0, 0)).1) j hj
        rw [ih _ _ _ (by rw [husers, hmo]; exact hj), husers, hmo]
      · exact ih _ _ _ hj
    · rfl

/-- The first stale entry of the connection table is processed by the
sweep: its bound user ends logged out, offline, with a cleared
connection. -/
theorem prune_loop_first_stale (now : Nat) :
    ∀ (fuel : Nat) (st : SState) (i k fd t j : Nat),
      i ≤ k → k < st.conns.length → st.conns.length - i < fuel →
      st.conns.getD k (0, 0) = (fd, t) →
      (∀ l, i ≤ l → l < k → stale now (st.conns.getD l (0, 0)).2 = false) →
      stale now t = true →
      find_user_index_by_socket_fd st.users fd = some j →
      ((prune_loop now fuel st i).users.getD j default).logged_in = false ∧
      ((prune_loop now fuel st i).users.getD j default).status = "Offline" ∧
      ((prune_loop now fuel st i).users.getD j default).connection_fd = -1 := by
  intro fuel
  induction fuel with
  | zero => intro st i k fd t j h1 h2 h3; omega
  | succ n ih =>
    intro st i k fd t j hik hk hfuel hkv hfirst hstale hj
    unfold prune_loop
    rw [if_pos (by omega)]
    by_cases hik2 : i = k
    · subst hik2
      rw [hkv]
      dsimp only
      rw [if_pos hstale]
      have hjlt : j < st.users.length := findIdx?_lt hj
      have hmo : (mark_offline st fd).users.getD j default =
          { st.users.getD j default with
            logged_in := false, status := "Offline", connection_fd := (-1 : Int) } := by
        unfold mark_offline
        rw [hj]
        dsimp only
        simp only [List.getD_eq_getElem?_getD]
        rw [List.getElem?_set_self (by exact hjlt)]
        rfl
      have hcleared :
          ((goodbye (mark_offline st fd) fd).state.users.getD j default).connection_fd = -1 := by
        rw [goodbye_users, hmo]
      rw [prune_loop_preserves_cleared now n _ _ _ hcleared, goodbye_users, hmo]
      exact ⟨rfl, rfl, rfl⟩
    · have hlt : i < k := by omega
      have hns : stale now ((st.conns.getD i (0, 0)).2) = false :=
        hfirst i (le_refl i) hlt
      rw [hns]
      rw [if_neg (by simp)]
      exact ih st (i + 1) k fd t j (by omega) hk (by omega) hkv
        (fun l hl1 hl2 => hfirst l (by omega) hl2) hstale hj

/-- C2 (amended): at a prune sweep, the first connection-table entry
whose heartbeat is stale (more than 20 seconds old) and has a user bound
to its socket leaves that user with `logged_in = false`, status
`"Offline"` and a cleared connection — but the user's `session_id`
retains its previous value (the sweep never writes any user's id), so
`logged_in ⇔ session_id ≠ -1` does not survive the sweep. -/
theorem C2_prune_marks_offline_but_keeps_session_id (st : SState) (now : Nat)
    (k fd t j : Nat)
    (hk : k < st.conns.length)
    (hkv : st.conns.getD k (0, 0) = (fd, t))
    (hfirst : ∀ l, l < k → stale now (st.conns.getD l (0, 0)).2 = false)
    (hstale : stale now t = true)
    (hj : find_user_index_by_socket_fd st.users fd = some j) :
    (((prune_dead_connections now st).users.getD j default).logged_in = false ∧
     ((prune_dead_connections now st).users.getD j default).status = "Offline" ∧
     ((prune_dead_connections now st).users.getD j default).connection_fd = -1) ∧
    ((prune_dead_connections now st).users.getD j default).id =
      (st.users.getD j default).id := by
  constructor
  · exact prune_loop_first_stale now (st.conns.length + 1) st 0 k fd t j
      (Nat.zero_le k) hk (by omega) hkv (fun l _ hl2 => hfirst l hl2) hstale hj
  · have hmap := prune_loop_ids now (st.conns.length + 1) st 0
    have h1 : (((prune_dead_connections now st).users.map (fun u => u.id)).getD j
        ((default : SUser).id)) = ((prune_dead_connections now st).users.getD j default).id :=
      List.getD_map _ _ _
    have h2 : ((st.users.map (fun u => u.id)).getD j ((default : SUser).id)) =
        (st.users.getD j default).id :=
      List.getD_map _ _ _
    unfold prune_dead_connections at h1 ⊢
    rw [hmap] at h1
    rw [← h1]
    exact h2

/-- Counterexample to C2 as stated: a logged-in user `alice` with
session id 5 bound to socket 1, whose connection (last heartbeat 0) is
stale at a sweep at second 100.  After the sweep she is logged out and
offline, but her session id is still 5, not the claimed -1 — so
`logged_in ⇔ session_id ≠ -1` fails. -/
theorem C2_counterexample :
    stale 100 0 = true ∧
    ((prune_dead_connections 100
        { next_id := 5, users := [⟨"alice", "Online", true, 0, 5, 1⟩],
          conns := [(1, 0)] }).users.getD 0 default).logged_in = false ∧
    ((prune_dead_connections 100
        { next_id := 5, users := [⟨"alice", "Online", true, 0, 5, 1⟩],
          conns := [(1, 0)] }).users.getD 0 default).id = 5 := by
  decide

/-- Witness for the amended C2 at the same concrete input. -/
theorem C2_witness :
    (((prune_dead_connections 100
        { next_id := 5, users := [⟨"alice", "Online", true, 0, 5, 1⟩],
          conns := [(1, 0)] }).users.getD 0 default).logged_in = false ∧
     ((prune_dead_connections 100
        { next_id := 5, users := [⟨"alice", "Online", true, 0, 5, 1⟩],
          conns := [(1, 0)] }).users.getD 0 default).status = "Offline" ∧
     ((prune_dead_connections 100
        { next_id := 5, users := [⟨"alice", "Online", true, 0, 5, 1⟩],
          conns := [(1, 0)] }).users.getD 0 default).connection_fd = -1) ∧
    ((prune_dead_connections 100
        { next_id := 5, users := [⟨"alice", "Online", true, 0, 5, 1⟩],
          conns := [(1, 0)] }).users.getD 0 default).id = 5 := by
  have h := C2_prune_marks_offline_but_keeps_session_id
    { next_id := 5, users := [⟨"alice", "Online", true, 0, 5, 1⟩], conns := [(1, 0)] }
    100 0 1 0 0 (by decide) (by decide) (by omega) (by decide) (by decide)
  exact ⟨h.1, h.2.trans (by decide)⟩

/-! Claim C3. -/

/-- C3 (amended): SEND_MESSAGE, DELETE_MESSAGE, GET_MESSAGES, SET_STATUS
and LOGOUT proceed past authentication only when a user exists with the
supplied session id, is logged in, and is bound to the arriving socket
(`auth_index`); on failure they reply INVALID_REQUEST and mutate
nothing.  GET_USERS and GET_GROUPS, by contrast, check only that the id
resolves and that the user is logged in: their behaviour does not depend
on the arriving socket at all, so a session id presented from a
different socket still proceeds there. -/
theorem C3_auth_gating :
    (∀ (st : SState) (sock : Nat) (sid : Int) (rtype : Nat)
        (rname content payload : String) (mid : Int),
      auth_index st sid sock = none →
        send_message st sock sid rtype rname content =
          { state := st, sent := [.status .INVALID_REQUEST] } ∧
        delete_message st sock sid mid =
          { state := st, sent := [.status .INVALID_REQUEST] } ∧
        get_messages st sock sid =
          { state := st, sent := [.status .INVALID_REQUEST] } ∧
        set_status st sock sid payload =
          { state := st, sent := [.status .INVALID_REQUEST] } ∧
        logout st sock sid =
          { state := st, sent := [.status .INVALID_REQUEST] }) ∧
    (∀ (st : SState) (sock sock' : Nat) (sid : Int) (now : Nat),
      get_users st sock sid now = get_users st sock' sid now ∧
      get_groups st sock sid = get_groups st sock' sid) ∧
    (∀ (st : SState) (sock : Nat) (sid : Int) (now : Nat) (i : Nat),
      find_user_index_by_id st.users sid = some i →
      (st.users.getD i default).logged_in = true →
      (get_users st sock sid now).sent.head? = some (.status .SUCCESS) ∧
      (get_groups st sock sid).sent.head? = some (.status .SUCCESS)) := by
  refine ⟨?_, ?_, ?_⟩
  · intro st sock sid rtype rname content payload mid h
    refine ⟨?_, ?_, ?_, ?_, ?_⟩
    · unfold send_message; rw [h]
    · unfold delete_message; rw [h]
    · unfold get_messages; rw [h]
    · unfold set_status; rw [h]
    · unfold logout; rw [h]
  · intro st sock sock' sid now
    exact ⟨rfl, rfl⟩
  · intro st sock sid now i hfind hlog
    simp only [List.getD_eq_getElem?_getD] at hlog
    constructor
    · unfold get_users
      rw [hfind]
      dsimp only
      rw [if_neg (by simp [hlog])]
      rfl
    · unfold get_groups
      rw [hfind]
      dsimp only
      rw [if_neg (by simp [hlog])]
      rfl

/-- Counterexample to C3 as stated: `alice` is logged in with session id
5 bound to socket 1.  A GET_USERS request carrying id 5 but arriving on
socket 2 fails the spec's `authenticated` check (`auth_index` is none),
yet the handler proceeds past its authentication step and serves the
directory. -/
theorem C3_counterexample :
    auth_index { users := [⟨"alice", "Online", true, 0, 5, 1⟩] } 5 2 = none ∧
    (get_users { users := [⟨"alice", "Online", true, 0, 5, 1⟩] } 2 5 0).sent.head? =
      some (.status .SUCCESS) ∧
    (get_groups { users := [⟨"alice", "Online", true, 0, 5, 1⟩] } 2 5).sent.head? =
      some (.status .SUCCESS) := by
  decide

/-- Witness for the amended C3 at concrete inputs: the five-handler part
at a state where the socket check fails, and the socket-independence
part for GET_USERS. -/
theorem C3_witness :
    send_message { users := [⟨"alice", "Online", true, 0, 5, 1⟩] } 2 5 0 "x" "y" =
      { state := { users := [⟨"alice", "Online", true, 0, 5, 1⟩] },
        sent := [.status .INVALID_REQUEST] } ∧
    logout { users := [⟨"alice", "Online", true, 0, 5, 1⟩] } 2 5 =
      { state := { users := [⟨"alice", "Online", true, 0, 5, 1⟩] },
        sent := [.status .INVALID_REQUEST] } ∧
    get_users { users := [⟨"alice", "Online", true, 0, 5, 1⟩] } 2 5 0 =
      get_users { users := [⟨"alice", "Online", true, 0, 5, 1⟩] } 7 5 0 ∧
    (get_users { users := [⟨"alice", "Online", true, 0, 5, 1⟩] } 2 5 0).sent.head? =
      some (.status .SUCCESS) := by
  refine ⟨?_, ?_, ?_, ?_⟩
  · exact ((C3_auth_gating.1 _ 2 5 0 "x" "y" "p" 0 (by decide)).1)
  · exact ((C3_auth_gating.1 _ 2 5 0 "x" "y" "p" 0 (by decide)).2.2.2.2)
  · exact (C3_auth_gating.2.1 _ 2 7 5 0).1
  · exact ((C3_auth_gating.2.2 _ 2 5 0 0 (by decide) (by decide)).1)

theorem name_eq_of_find_user (us : List SUser) (a : String) (ai : Nat)
    (ha : find_user_index_by_name us a = some ai) :
    (us.getD ai default).name = a := by
  have := findIdx?_getD default ha
  simpa [beq_iff_eq] using this

/-- Evaluation of the member loop on a two-member group. -/
theorem group_fanout_pair (content sname a b : String) (st : SState) (mid : Nat)
    (ai bi : Nat)
    (ha : find_user_index_by_name st.users a = some ai)
    (hb : find_user_index_by_name st.users b = some bi) :
    group_fanout content sname [a, b] st mid =
      ({ st with
          messages := st.messages ++
            [⟨content, (st.users.getD ai default).name, sname, (mid : Int)⟩,
             ⟨content, (st.users.getD bi default).name, sname,
               ((st.next_id + 1 : Nat) : Int)⟩],
          next_id := st.next_id + 2 },
       [.updateId (st.next_id + 1), .updateId (st.next_id + 2)]) := by
  unfold group_fanout
  rw [ha]
  dsimp only [get_next_id]
  unfold group_fanout
  rw [hb]
  dsimp only [get_next_id]
  unfold group_fanout
  simp

/-- C4 (amended): a group send by an authenticated sender to an existing
group with exactly two distinct members, both existing users with no
prior pending messages, journals exactly one NEW_MESSAGE record and
exactly THREE UPDATE_ID records (the allocation before the branch plus
the one performed after each of the two members — the source itself
flags the final one as a pointless commit); it stores one message per
member, each with its own fresh consecutive id, and each member's
subsequent GET_MESSAGES selection holds exactly one message with that
sender and content. -/
theorem C4_group_send_fanout (st : SState) (sock : Nat) (sid : Int)
    (gname a b content : String) (i gi ai bi : Nat)
    (hauth : auth_index st sid sock = some i)
    (hg : find_group_index_by_name st.groups gname = some gi)
    (hmem : (st.groups.getD gi default).users = [a, b])
    (ha : find_user_index_by_name st.users a = some ai)
    (hb : find_user_index_by_name st.users b = some bi)
    (hab : a ≠ b)
    (hc : content.length ≤ CHAT_MAX_MESSAGE_LENGTH)
    (hfresh : ∀ m ∈ st.messages, m.recipient ≠ a ∧ m.recipient ≠ b) :
    (send_message st sock sid RECIPIENT_TYPE_GROUP gname content).recs.countP
        isUpdateIdRec = 3 ∧
    (send_message st sock sid RECIPIENT_TYPE_GROUP gname content).recs.countP
        isNewMessageRec = 1 ∧
    (send_message st sock sid RECIPIENT_TYPE_GROUP gname content).state.messages =
      st.messages ++
        [⟨content, a, (st.users.getD i default).name, ((st.next_id + 1 : Nat) : Int)⟩,
         ⟨content, b, (st.users.getD i default).name, ((st.next_id + 2 : Nat) : Int)⟩] ∧
    ((st.next_id + 1 : Nat) : Int) ≠ ((st.next_id + 2 : Nat) : Int) ∧
    messages_for_user
        (send_message st sock sid RECIPIENT_TYPE_GROUP gname content).state.messages a =
      [⟨content, a, (st.users.getD i default).name, ((st.next_id + 1 : Nat) : Int)⟩] ∧
    messages_for_user
        (send_message st sock sid RECIPIENT_TYPE_GROUP gname content).state.messages b =
      [⟨content, b, (st.users.getD i default).name, ((st.next_id + 2 : Nat) : Int)⟩] := by
  have hra := name_eq_of_find_user st.users a ai ha
  have hrb := name_eq_of_find_user st.users b bi hb
  have hmain : send_message st sock sid RECIPIENT_TYPE_GROUP gname content =
      { state := { st with
          messages := st.messages ++
            [⟨content, a, (st.users.getD i default).name, ((st.next_id + 1 : Nat) : Int)⟩,
             ⟨content, b, (st.users.getD i default).name, ((st.next_id + 2 : Nat) : Int)⟩],
          next_id := st.next_id + 3 },
        recs := [.updateId (st.next_id + 1),
          .newMessage (st.users.getD i default).name RECIPIENT_TYPE_GROUP gname content,
          .updateId (st.next_id + 2), .updateId (st.next_id + 3)],
        sent := [.status .SUCCESS, .status .SUCCESS] } := by
    unfold send_message
    rw [hauth]
    dsimp only
    rw [if_neg (by decide), hg]
    dsimp only
    rw [if_neg (by omega)]
    dsimp only [get_next_id]
    rw [hmem, group_fanout_pair content ((st.users.getD i default).name) a b
      { st with next_id := st.next_id + 1 } (st.next_id + 1) ai bi ha hb]
    dsimp only
    simp only [List.getD_eq_getElem?_getD] at hra hrb
    simp [hra, hrb, Nat.add_assoc]
  rw [hmain]
  refine ⟨?_, ?_, rfl, by omega, ?_, ?_⟩
  · simp [List.countP_cons, isUpdateIdRec, isNewMessageRec]
  · simp [List.countP_cons, isUpdateIdRec, isNewMessageRec]
  · unfold messages_for_user
    dsimp only
    rw [List.filter_append]
    have h1 : st.messages.filter (fun m => m.recipient == a) = [] :=
      List.filter_eq_nil_iff.mpr (fun m hm => by
        simpa using (hfresh m hm).1)
    rw [h1]
    have hba : b ≠ a := Ne.symm hab
    simp [hba]
  · unfold messages_for_user
    dsimp only
    rw [List.filter_append]
    have h1 : st.messages.filter (fun m => m.recipient == b) = [] :=
      List.filter_eq_nil_iff.mpr (fun m hm => by
        simpa using (hfresh m hm).2)
    rw [h1]
    simp [hab]

/-- Counterexample to C4 as stated: in the seed-scenario conditions
(`alice` logged in with session 1 on socket 1; group `g1` of `alice`
and `bob`), a group send journals THREE `UPDATE_ID` records, not the
claimed two. -/
theorem C4_counterexample :
    ¬ ((send_message
        { next_id := 0,
          users := [⟨"alice", "Online", true, 0, 1, 1⟩, ⟨"bob", "Offline", false, 0, -1, -1⟩],
          groups := [⟨"g1", ["alice", "bob"]⟩] } 1 1 RECIPIENT_TYPE_GROUP "g1" "hi").recs.countP
          isUpdateIdRec = 2) ∧
    (send_message
        { next_id := 0,
          users := [⟨"alice", "Online", true, 0, 1, 1⟩, ⟨"bob", "Offline", false, 0, -1, -1⟩],
          groups := [⟨"g1", ["alice", "bob"]⟩] } 1 1 RECIPIENT_TYPE_GROUP "g1" "hi").recs.countP
        isUpdateIdRec = 3 := by
  decide

/-- Witness for the amended C4 at the same concrete input. -/
theorem C4_witness :
    (send_message
        { next_id := 0,
          users := [⟨"alice", "Online", true, 0, 1, 1⟩, ⟨"bob", "Offline", false, 0, -1, -1⟩],
          groups := [⟨"g1", ["alice", "bob"]⟩] } 1 1 RECIPIENT_TYPE_GROUP "g1" "hi").recs.countP
        isUpdateIdRec = 3 ∧
    (send_message
        { next_id := 0,
          users := [⟨"alice", "Online", true, 0, 1, 1⟩, ⟨"bob", "Offline", false, 0, -1, -1⟩],
          groups := [⟨"g1", ["alice", "bob"]⟩] } 1 1 RECIPIENT_TYPE_GROUP "g1" "hi").recs.countP
        isNewMessageRec = 1 ∧
    messages_for_user
        (send_message
          { next_id := 0,
            users := [⟨"alice", "Online", true, 0, 1, 1⟩, ⟨"bob", "Offline", false, 0, -1, -1⟩],
            groups := [⟨"g1", ["alice", "bob"]⟩] } 1 1 RECIPIENT_TYPE_GROUP
          "g1" "hi").state.messages "alice" =
      [⟨"hi", "alice", "alice", 1⟩] ∧
    messages_for_user
        (send_message
          { next_id := 0,
            users := [⟨"alice", "Online", true, 0, 1, 1⟩, ⟨"bob", "Offline", false, 0, -1, -1⟩],
            groups := [⟨"g1", ["alice", "bob"]⟩] } 1 1 RECIPIENT_TYPE_GROUP
          "g1" "hi").state.messages "bob" =
      [⟨"hi", "bob", "alice", 2⟩] := by
  have h := C4_group_send_fanout
    { next_id := 0,
      users := [⟨"alice", "Online", true, 0, 1, 1⟩, ⟨"bob", "Offline", false, 0, -1, -1⟩],
      groups := [⟨"g1", ["alice", "bob"]⟩] } 1 1 "g1" "alice" "bob" "hi" 0 0 0 1
    (by decide) (by decide) (by decide) (by decide) (by decide) (by decide) (by decide)
    (by simp)
  exact ⟨h.1, h.2.1, h.2.2.2.2.1, h.2.2.2.2.2⟩

/-! Digit and decimal-printer lemmas. -/

theorem digitChar_facts : ∀ m, m < 10 →
    (Nat.digitChar m).isDigit = true ∧ isWs (Nat.digitChar m) = false ∧
    (Nat.digitChar m).toNat - 48 = m ∧ Nat.digitChar m ≠ '-' ∧
    Nat.digitChar m ≠ '+' ∧ Nat.digitChar m ≠ '"' := by
  decide

theorem natDigitsF_mono : ∀ (f f' n : Nat), n < f → f ≤ f' →
    natDigitsF f n = natDigitsF f' n := by
  intro f
  induction f with
  | zero => intro f' n h _; omega
  | succ k ih =>
    intro f' n hn hf
    cases f' with
    | zero => omega
    | succ k' =>
      unfold natDigitsF
      by_cases h10 : n < 10
      · simp [h10]
      · simp only [if_neg h10]
        have hd : n / 10 < n := Nat.div_lt_self (by omega) (by omega)
        rw [ih k' (n / 10) (by omega) (by omega)]

theorem natDigits_eq (n : Nat) :
    natDigits n = if n < 10 then [Nat.digitChar n]
      else natDigits (n / 10) ++ [Nat.digitChar (n % 10)] := by
  unfold natDigits
  conv_lhs => unfold natDigitsF
  by_cases h : n < 10
  · simp [h]
  · have hd : n / 10 < n := Nat.div_lt_self (by omega) (by omega)
    simp only [if_neg h]
    rw [natDigitsF_mono (n / 10 + 1) n (n / 10) (by omega) (by omega)]

theorem digitsVal_append_singleton (xs : List Char) (c : Char) :
    digitsVal (xs ++ [c]) = digitsVal xs * 10 + (c.toNat - 48) := by
  simp [digitsVal, List.foldl_append]

/-- The decimal printer produces a non-empty, all-digit list whose
parsed value is `n` and whose characters are never special. -/
theorem natDigits_spec (n : Nat) :
    natDigits n ≠ [] ∧
    (∀ c ∈ natDigits n, c.isDigit = true ∧ isWs c = false ∧ c ≠ '-' ∧
      c ≠ '+' ∧ c ≠ '"') ∧
    digitsVal (natDigits n) = n := by
  induction n using Nat.strong_induction_on with
  | _ n ih =>
    rw [natDigits_eq]
    by_cases h : n < 10
    · simp only [if_pos h]
      obtain ⟨f1, f2, f3, f4, f5, f6⟩ := digitChar_facts n h
      refine ⟨by simp, ?_, ?_⟩
      · intro c hc
        simp only [List.mem_singleton] at hc
        subst hc
        exact ⟨f1, f2, f4, f5, f6⟩
      · simpa [digitsVal] using f3
    · have hd : n / 10 < n := Nat.div_lt_self (by omega) (by omega)
      obtain ⟨h1, h2, h3⟩ := ih (n / 10) hd
      have hm : n % 10 < 10 := Nat.mod_lt _ (by omega)
      obtain ⟨g1, g2, g3, g4, g5, g6⟩ := digitChar_facts _ hm
      simp only [if_neg h]
      refine ⟨by simp, ?_, ?_⟩
      · intro c hc
        rcases List.mem_append.mp hc with hc | hc
        · exact h2 c hc
        · simp only [List.mem_singleton] at hc
          subst hc
          exact ⟨g1, g2, g4, g5, g6⟩
      · rw [digitsVal_append_singleton, h3, g3]
        omega

theorem natDigits_length_le : ∀ (k n : Nat), 0 < k → n < 10 ^ k →
    (natDigits n).length ≤ k := by
  intro k
  induction k using Nat.strong_induction_on with
  | _ k ih =>
    intro n hk hn
    rw [natDigits_eq]
    by_cases h : n < 10
    · simp only [if_pos h, List.length_singleton]
      omega
    · have hk2 : 2 ≤ k := by
        by_contra hcon
        have hk1 : k = 1 := by omega
        subst hk1
        simp at hn
        omega
      have hd : n / 10 < 10 ^ (k - 1) := by
        rw [Nat.div_lt_iff_lt_mul (by omega)]
        have : 10 ^ (k - 1) * 10 = 10 ^ k := by
          have hpow : 10 ^ (k - 1) * 10 = 10 ^ (k - 1 + 1) := by ring
          rw [hpow]
          congr 1
          omega
        omega
      have := ih (k - 1) (by omega) (n / 10) (by omega) hd
      simp only [if_neg h, List.length_append, List.length_singleton]
      omega

theorem digitsPrefix_all_digits (ds : List Char)
    (h : ∀ c ∈ ds, c.isDigit = true) : digitsPrefix ds = ds := by
  induction ds with
  | nil => rfl
  | cons c t iht =>
    unfold digitsPrefix
    rw [if_pos (h c (by simp))]
    rw [iht (fun x hx => h x (by simp [hx]))]

/-- `strtol` round trip: parsing back the printed digits of any value
below `2^31` recovers it. -/
theorem strtol_natDigits (v : Nat) (hv : v < 2 ^ 31) :
    strtol_u32 (natDigits v) = some v := by
  obtain ⟨hne, hprops, hval⟩ := natDigits_spec v
  cases hnd : natDigits v with
  | nil => exact absurd hnd hne
  | cons c t =>
    have hc := hprops c (by rw [hnd]; simp)
    have hall : ∀ x ∈ c :: t, x.isDigit = true := by
      intro x hx
      exact (hprops x (by rw [hnd]; exact hx)).1
    unfold strtol_u32
    dsimp only
    rw [if_neg hc.2.2.1, if_neg hc.2.2.2.1]
    have hpre : digitsPrefix (c :: t) = c :: t := digitsPrefix_all_digits _ hall
    simp only [hpre]
    rw [if_neg (by simp)]
    rw [hnd] at hval
    rw [hval]
    congr 1
    omega

/-! Whitespace-skipping and scanner lemmas. -/

theorem skipWs_cons_of_ws {c : Char} (t : List Char) (h : isWs c = true) :
    skipWs (c :: t) = skipWs t := by
  conv_lhs => unfold skipWs
  rw [if_pos h]

theorem skipWs_cons_of_not {c : Char} (t : List Char) (h : isWs c = false) :
    skipWs (c :: t) = c :: t := by
  conv_lhs => unfold skipWs
  rw [if_neg (by simp [h])]

theorem skipWs_idem (cs : List Char) : skipWs (skipWs cs) = skipWs cs := by
  induction cs with
  | nil => rfl
  | cons c t ih =>
    by_cases h : isWs c = true
    · rw [skipWs_cons_of_ws t h, ih]
    · rw [skipWs_cons_of_not t (by simpa using h),
        skipWs_cons_of_not t (by simpa using h)]

theorem skipWs_length_le (cs : List Char) : (skipWs cs).length ≤ cs.length := by
  induction cs with
  | nil => simp [skipWs]
  | cons c t ih =>
    by_cases h : isWs c = true
    · rw [skipWs_cons_of_ws t h]
      simp only [List.length_cons]
      omega
    · rw [skipWs_cons_of_not t (by simpa using h)]

theorem scanQuote_spec : ∀ (s : List Char) (n : Nat) (rest : List Char),
    s.length < n → (∀ c ∈ s, c ≠ '"') →
    scanQuote n (s ++ '"' :: rest) = some (s, rest) := by
  intro s
  induction s with
  | nil =>
    intro n rest hn _
    cases n with
    | zero => omega
    | succ m =>
      unfold scanQuote
      simp
  | cons c t ih =>
    intro n rest hn h
    cases n with
    | zero => omega
    | succ m =>
      unfold scanQuote
      dsimp only [List.cons_append]
      rw [if_neg (h c (by simp))]
      rw [ih m rest (by simp at hn ⊢; omega) (fun x hx => h x (by simp [hx]))]
      rfl

theorem scanQuote_length : ∀ (n : Nat) (cs : List Char) (s rest : List Char),
    scanQuote n cs = some (s, rest) → rest.length < cs.length := by
  intro n
  induction n with
  | zero =>
    intro cs s rest h
    cases cs <;> simp [scanQuote] at h
  | succ m ih =>
    intro cs s rest h
    cases cs with
    | nil => simp [scanQuote] at h
    | cons c t =>
      unfold scanQuote at h
      by_cases hc : c = '"'
      · rw [if_pos hc] at h
        simp at h
        obtain ⟨_, h2⟩ := h
        subst h2
        simp
      · rw [if_neg hc] at h
        cases hsc : scanQuote m t with
        | none => rw [hsc] at h; simp at h
        | some p =>
          rw [hsc] at h
          simp at h
          have := ih t p.1 p.2 (by rw [hsc])
          obtain ⟨_, h2⟩ := h
          subst h2
          simp only [List.length_cons]
          omega

theorem scanTok_spec : ∀ (s : List Char) (n : Nat) (w : Char) (rest : List Char),
    s.length < n → isWs w = true → (∀ c ∈ s, isWs c = false) →
    scanTok n (s ++ w :: rest) = some (s, rest) := by
  intro s
  induction s with
  | nil =>
    intro n w rest hn hw _
    cases n with
    | zero => omega
    | succ m =>
      unfold scanTok
      simp [hw]
  | cons c t ih =>
    intro n w rest hn hw h
    cases n with
    | zero => omega
    | succ m =>
      unfold scanTok
      dsimp only [List.cons_append]
      rw [if_neg (by simp [h c (by simp)])]
      rw [ih m w rest (by simp at hn ⊢; omega) hw (fun x hx => h x (by simp [hx]))]
      rfl

theorem scanTok_length : ∀ (n : Nat) (cs : List Char) (s rest : List Char),
    scanTok n cs = some (s, rest) → rest.length < cs.length := by
  intro n
  induction n with
  | zero =>
    intro cs s rest h
    cases cs <;> simp [scanTok] at h
  | succ m ih =>
    intro cs s rest h
    cases cs with
    | nil => simp [scanTok] at h
    | cons c t =>
      unfold scanTok at h
      by_cases hc : isWs c = true
      · rw [if_pos hc] at h
        simp at h
        obtain ⟨_, h2⟩ := h
        subst h2
        simp
      · rw [if_neg hc] at h
        cases hsc : scanTok m t with
        | none => rw [hsc] at h; simp at h
        | some p =>
          rw [hsc] at h
          simp at h
          have := ih t p.1 p.2 (by rw [hsc])
          obtain ⟨_, h2⟩ := h
          subst h2
          simp only [List.length_cons]
          omega

theorem scanNumTok_spec_nil : ∀ (s : List Char) (n : Nat),
    s.length ≤ n → (∀ c ∈ s, isWs c = false) →
    scanNumTok n s = some (s, []) := by
  intro s
  induction s with
  | nil =>
    intro n _ _
    cases n <;> rfl
  | cons c t ih =>
    intro n hn h
    cases n with
    | zero => simp at hn
    | succ m =>
      unfold scanNumTok
      rw [if_neg (by simp [h c (by simp)])]
      rw [ih m (by simp at hn ⊢; omega) (fun x hx => h x (by simp [hx]))]
      rfl

theorem scanNumTok_spec_ws : ∀ (s : List Char) (n : Nat) (w : Char) (rest : List Char),
    s.length < n → isWs w = true → (∀ c ∈ s, isWs c = false) →
    scanNumTok n (s ++ w :: rest) = some (s, rest) := by
  intro s
  induction s with
  | nil =>
    intro n w rest hn hw _
    cases n with
    | zero => omega
    | succ m =>
      unfold scanNumTok
      simp [hw]
  | cons c t ih =>
    intro n w rest hn hw h
    cases n with
    | zero => omega
    | succ m =>
      unfold scanNumTok
      dsimp only [List.cons_append]
      rw [if_neg (by simp [h c (by simp)])]
      rw [ih m w rest (by simp at hn ⊢; omega) hw (fun x hx => h x (by simp [hx]))]
      rfl

theorem scanNumTok_length : ∀ (n : Nat) (cs : List Char) (s rest : List Char),
    scanNumTok n cs = some (s, rest) → rest.length ≤ cs.length := by
  intro n
  induction n with
  | zero =>
    intro cs s rest h
    cases cs with
    | nil => simp [scanNumTok] at h; simp [h.2.symm]
    | cons c t => simp [scanNumTok] at h
  | succ m ih =>
    intro cs s rest h
    cases cs with
    | nil =>
      simp [scanNumTok] at h
      simp [h.2.symm]
    | cons c t =>
      unfold scanNumTok at h
      by_cases hc : isWs c = true
      · rw [if_pos hc] at h
        simp at h
        obtain ⟨_, h2⟩ := h
        subst h2
        simp
      · rw [if_neg hc] at h
        cases hsc : scanNumTok m t with
        | none => rw [hsc] at h; simp at h
        | some p =>
          rw [hsc] at h
          simp at h
          have := ih t p.1 p.2 (by rw [hsc])
          obtain ⟨_, h2⟩ := h
          subst h2
          simp only [List.length_cons]
          omega

/-! Reader specifications: on text produced by the journal writer, each
reader returns the original value.  Leading whitespace is absorbed by
every reader via `next_non_whitespace`, so the specifications are stated
modulo `skipWs`. -/

theorem readQuoted_skipWs (cs : List Char) : readQuoted cs = readQuoted (skipWs cs) := by
  unfold readQuoted
  rw [skipWs_idem]

theorem readQuoted_spec (u : String) (rest : List Char)
    (h1 : noQuote u) (h2 : u.length ≤ 1022) :
    readQuoted (qstr u ++ rest) = some (u, rest) := by
  unfold readQuoted qstr
  rw [List.cons_append, skipWs_cons_of_not _ (by decide)]
  dsimp only
  rw [if_pos rfl]
  have harr : (u.data ++ ['"']) ++ rest = u.data ++ '"' :: rest := by simp
  rw [harr]
  rw [scanQuote_spec u.data 1023 rest (by
    have : u.data.length = u.length := rfl
    omega) h1]
  rfl

theorem readQuoted_length (cs : List Char) (u : String) (rest : List Char)
    (h : readQuoted cs = some (u, rest)) : rest.length < cs.length := by
  unfold readQuoted at h
  split at h
  · simp at h
  · rename_i c t heq
    split at h
    · cases hsc : scanQuote 1023 t with
      | none => rw [hsc] at h; simp at h
      | some p =>
        rw [hsc] at h
        simp at h
        have h1 := scanQuote_length 1023 t p.1 p.2 (by rw [hsc])
        have h2 : (skipWs cs).length ≤ cs.length := skipWs_length_le cs
        rw [heq] at h2
        simp only [List.length_cons] at h2
        obtain ⟨_, hr⟩ := h
        subst hr
        omega
    · simp at h

theorem readU32_spec_ws (v : Nat) (hv : v < 2 ^ 31) (w : Char) (hw : isWs w = true)
    (rest : List Char) :
    readU32 (natDigits v ++ w :: rest) = some (v, rest) := by
  obtain ⟨hne, hprops, _⟩ := natDigits_spec v
  have hlen : (natDigits v).length ≤ 10 := by
    refine natDigits_length_le 10 v (by omega) ?_
    have h10 : (10 : Nat) ^ 10 = 10000000000 := by norm_num
    omega
  cases hnd : natDigits v with
  | nil => exact absurd hnd hne
  | cons c ds =>
    unfold readU32
    rw [List.cons_append, skipWs_cons_of_not _ ((hprops c (by rw [hnd]; simp)).2.1)]
    dsimp only
    rw [scanNumTok_spec_ws ds 1022 w rest
      (by rw [hnd] at hlen; simp only [List.length_cons] at hlen; omega) hw
      (fun x hx => (hprops x (by rw [hnd]; simp [hx])).2.1)]
    dsimp only
    rw [← hnd, strtol_natDigits v hv]
    dsimp only
    rw [if_neg (by unfold INVALID_U32; omega)]

theorem readU32_spec_nil (v : Nat) (hv : v < 2 ^ 31) :
    readU32 (natDigits v) = some (v, []) := by
  obtain ⟨hne, hprops, _⟩ := natDigits_spec v
  have hlen : (natDigits v).length ≤ 10 := by
    refine natDigits_length_le 10 v (by omega) ?_
    have h10 : (10 : Nat) ^ 10 = 10000000000 := by norm_num
    omega
  cases hnd : natDigits v with
  | nil => exact absurd hnd hne
  | cons c ds =>
    unfold readU32
    rw [skipWs_cons_of_not _ ((hprops c (by rw [hnd]; simp)).2.1)]
    dsimp only
    rw [scanNumTok_spec_nil ds 1022
      (by rw [hnd] at hlen; simp only [List.length_cons] at hlen; omega)
      (fun x hx => (hprops x (by rw [hnd]; simp [hx])).2.1)]
    dsimp only
    rw [← hnd, strtol_natDigits v hv]
    dsimp only
    rw [if_neg (by unfold INVALID_U32; omega)]

theorem readU32_skipWs (cs : List Char) : readU32 cs = readU32 (skipWs cs) := by
  unfold readU32
  rw [skipWs_idem]

theorem readU32_length (cs : List Char) (v : Nat) (rest : List Char)
    (h : readU32 cs = some (v, rest)) : rest.length < cs.length := by
  unfold readU32 at h
  split at h
  · simp at h
  · rename_i c t heq
    cases hsc : scanNumTok 1022 t with
    | none => rw [hsc] at h; simp at h
    | some p =>
      obtain ⟨ds, r2⟩ := p
      rw [hsc] at h
      dsimp only at h
      cases hst : strtol_u32 (c :: ds) with
      | none => rw [hst] at h; simp at h
      | some v' =>
        rw [hst] at h
        dsimp only at h
        split at h
        · simp at h
        · simp at h
          have h1 := scanNumTok_length 1022 t ds r2 (by rw [hsc])
          have h2 : (skipWs cs).length ≤ cs.length := skipWs_length_le cs
          rw [heq] at h2
          simp only [List.length_cons] at h2
          obtain ⟨_, hr⟩ := h
          subst hr
          omega

theorem readTokenC_spec (c : Char) (t rest : List Char) (w : Char)
    (hw : isWs w = true) (hnws : ∀ x ∈ c :: t, isWs x = false)
    (hlen : t.length < 1022) :
    readTokenC ((c :: t) ++ w :: rest) = some (c :: t, rest) := by
  unfold readTokenC
  rw [List.cons_append, skipWs_cons_of_not _ (hnws c (by simp))]
  dsimp only
  rw [scanTok_spec t 1022 w rest hlen hw (fun x hx => hnws x (by simp [hx]))]
  rfl

theorem readTokenC_skipWs (cs : List Char) : readTokenC cs = readTokenC (skipWs cs) := by
  unfold readTokenC
  rw [skipWs_idem]

theorem readTokenC_length (cs : List Char) (tok rest : List Char)
    (h : readTokenC cs = some (tok, rest)) : rest.length < cs.length := by
  unfold readTokenC at h
  split at h
  · simp at h
  · rename_i c t heq
    cases hsc : scanTok 1022 t with
    | none => rw [hsc] at h; simp at h
    | some p =>
      rw [hsc] at h
      simp at h
      have h1 := scanTok_length 1022 t p.1 p.2 (by rw [hsc])
      have h2 : (skipWs cs).length ≤ cs.length := skipWs_length_le cs
      rw [heq] at h2
      simp only [List.length_cons] at h2
      obtain ⟨_, hr⟩ := h
      subst hr
      omega

theorem readMembers_spec : ∀ (ms : List String) (cs rest : List Char),
    (∀ m ∈ ms, noQuote m ∧ m.length ≤ 1022) →
    skipWs cs = skipWs (membersEnc ms ++ rest) →
    ∃ rest2, readMembers ms.length cs = some (ms, rest2) ∧
      skipWs rest2 = skipWs rest := by
  intro ms
  induction ms with
  | nil =>
    intro cs rest _ hskip
    exact ⟨cs, rfl, by simpa [membersEnc] using hskip⟩
  | cons m ms ih =>
    intro cs rest h hskip
    have henc : membersEnc (m :: ms) ++ rest =
        qstr m ++ (' ' :: (membersEnc ms ++ rest)) := by
      simp [membersEnc, qstr]
    have hqm : skipWs (qstr m ++ (' ' :: (membersEnc ms ++ rest))) =
        qstr m ++ (' ' :: (membersEnc ms ++ rest)) := by
      unfold qstr
      rw [List.cons_append, skipWs_cons_of_not _ (by decide)]
    have hq : readQuoted cs = some (m, ' ' :: (membersEnc ms ++ rest)) := by
      rw [readQuoted_skipWs, hskip, henc, hqm]
      exact readQuoted_spec m _ (h m (by simp)).1 (h m (by simp)).2
    obtain ⟨rest2, hr, hs⟩ := ih (' ' :: (membersEnc ms ++ rest)) rest
      (fun x hx => h x (by simp [hx]))
      (by rw [skipWs_cons_of_ws _ (by decide)])
    refine ⟨rest2, ?_, hs⟩
    show readMembers (ms.length + 1) cs = some (m :: ms, rest2)
    unfold readMembers
    rw [hq]
    dsimp only
    rw [hr]

theorem readMembers_length : ∀ (n : Nat) (cs : List Char) (ms : List String)
    (rest : List Char), readMembers n cs = some (ms, rest) →
    rest.length ≤ cs.length := by
  intro n
  induction n with
  | zero =>
    intro cs ms rest h
    unfold readMembers at h
    simp at h
    simp [h.2.symm]
  | succ k ih =>
    intro cs ms rest h
    unfold readMembers at h
    cases hq : readQuoted cs with
    | none => rw [hq] at h; simp at h
    | some p =>
      obtain ⟨m1, r1⟩ := p
      rw [hq] at h
      dsimp only at h
      cases hm : readMembers k r1 with
      | none => rw [hm] at h; simp at h
      | some q =>
        obtain ⟨ms1, r2⟩ := q
        rw [hm] at h
        dsimp only at h
        simp at h
        have h1 := readQuoted_length cs m1 r1 (by rw [hq])
        have h2 := ih r1 ms1 r2 (by rw [hm])
        obtain ⟨_, hr⟩ := h
        subst hr
        omega

theorem nextText_skipWs (cs : List Char) : nextText cs = nextText (skipWs cs) := by
  unfold nextText
  rw [readTokenC_skipWs cs]

theorem nextText_of_ws_empty (cs : List Char) (h : skipWs cs = []) :
    nextText cs = none := by
  unfold nextText readTokenC
  rw [h]

/-! Assembling the per-record parse lemma. -/

theorem skipWs_qstr (s : String) (X : List Char) :
    skipWs (qstr s ++ X) = qstr s ++ X := by
  unfold qstr
  rw [List.cons_append, skipWs_cons_of_not _ (by decide)]

theorem skipWs_natDigits (v : Nat) (X : List Char) :
    skipWs (natDigits v ++ X) = natDigits v ++ X := by
  obtain ⟨hne, hprops, _⟩ := natDigits_spec v
  cases hnd : natDigits v with
  | nil => exact absurd hnd hne
  | cons c ds =>
    rw [List.cons_append, skipWs_cons_of_not _ ((hprops c (by rw [hnd]; simp)).2.1)]

theorem readTokenC_opname (tok : List Char) (hne : tok ≠ [])
    (hnws : ∀ x ∈ tok, isWs x = false) (hlen : tok.length < 1023) (w : Char)
    (hw : isWs w = true) (rest : List Char) :
    readTokenC (tok ++ w :: rest) = some (tok, rest) := by
  cases tok with
  | nil => contradiction
  | cons c t =>
    exact readTokenC_spec c t rest w hw hnws (by simp at hlen; omega)

theorem membersEnc_length_ge (ms : List String) :
    ms.length ≤ (membersEnc ms).length := by
  induction ms with
  | nil => simp [membersEnc]
  | cons m t ih =>
    simp only [membersEnc, List.map_cons, List.flatten_cons, List.length_append,
      List.length_cons] at ih ⊢
    have : (qstr m).length = m.length + 2 := by
      simp [qstr]
    omega

theorem encBodyFull_le (B : Nat) (hB : B < 2 ^ 31) (r : JRec) (hr : wfRecB B r) :
    (encBodyFull r).length ≤ 1023 := by
  have hdig : ∀ n : Nat, n ≤ B → (natDigits n).length ≤ 10 := by
    intro n hn
    refine natDigits_length_le 10 n (by omega) ?_
    have h10 : (10 : Nat) ^ 10 = 10000000000 := by norm_num
    omega
  cases r with
  | newUser u =>
    obtain ⟨_, h2⟩ := hr
    simp only [encBodyFull, List.length_append]
    have hq : (qstr u).length = u.length + 2 := by simp [qstr]
    simp only [List.length_cons, List.length_nil]
    omega
  | newMessage s t rn c =>
    obtain ⟨⟨_, hs⟩, ⟨_, hrn⟩, _, hc, ht⟩ := hr
    simp only [encBodyFull, List.length_append, List.length_cons]
    have h1 : (qstr s).length = s.length + 2 := by simp [qstr]
    have h2 : (qstr rn).length = rn.length + 2 := by simp [qstr]
    have h3 : (qstr c).length = c.length + 2 := by simp [qstr]
    have h4 : (natDigits t).length ≤ 10 := by
      refine natDigits_length_le 10 t (by omega) ?_
      have h10 : (10 : Nat) ^ 10 = 10000000000 := by norm_num
      omega
    simp only [List.length_cons, List.length_nil]
    omega
  | deleteMessage n =>
    simp only [encBodyFull, List.length_append]
    have h1 := hdig n hr
    simp only [List.length_cons, List.length_nil]
    omega
  | updateId n =>
    simp only [encBodyFull, List.length_append]
    have h1 := hdig n hr
    simp only [List.length_cons, List.length_nil]
    omega
  | newGroup g ms =>
    exact hr.2.2

/-- Parsing one committed line from the front of the remaining text
recovers the record; the leftover differs from the following text only
by leading whitespace. -/
theorem nextLine_spec (B : Nat) (hB : B < 2 ^ 31) (r : JRec) (hr : wfRecB B r)
    (rest : List Char)
    (hrest : rest = [] ∨ ∃ w t, rest = w :: t ∧ isWs w = true) :
    ∃ rest2, nextText (encLine r ++ rest) = some (r, rest2) ∧
      skipWs rest2 = skipWs rest := by
  have htake : (encBodyFull r).take 1023 = encBodyFull r :=
    List.take_of_length_le (encBodyFull_le B hB r hr)
  have hline : encLine r ++ rest = '\n' :: (encBodyFull r ++ rest) := by
    unfold encLine
    rw [htake]
    rfl
  rw [hline]
  have hsk1 : ∀ X : List Char, nextText ('\n' :: X) = nextText X := by
    intro X
    rw [nextText_skipWs ('\n' :: X), skipWs_cons_of_ws _ (by decide), ← nextText_skipWs X]
  rw [hsk1]
  cases r with
  | newUser u =>
    obtain ⟨hq, hl⟩ := hr
    have harr : encBodyFull (.newUser u) ++ rest =
        "NEW_USER".data ++ ' ' :: (qstr u ++ rest) := by
      show ("NEW_USER ".data ++ qstr u) ++ rest = _
      have : ("NEW_USER ".data : List Char) = "NEW_USER".data ++ [' '] := by decide
      rw [this]
      simp
    rw [harr]
    refine ⟨rest, ?_, rfl⟩
    unfold nextText
    rw [readTokenC_opname "NEW_USER".data (by decide) (by decide) (by decide) ' '
      (by decide) (qstr u ++ rest)]
    dsimp only
    rw [if_pos rfl]
    rw [readQuoted_spec u rest hq (by omega)]
    rfl
  | updateId n =>
    have hn : n ≤ B := hr
    have harr : encBodyFull (.updateId n) ++ rest =
        "UPDATE_ID".data ++ ' ' :: (natDigits n ++ rest) := by
      show ("UPDATE_ID ".data ++ natDigits n) ++ rest = _
      have : ("UPDATE_ID ".data : List Char) = "UPDATE_ID".data ++ [' '] := by decide
      rw [this]
      simp
    rw [harr]
    have hdisp : ∀ X, nextText ("UPDATE_ID".data ++ ' ' :: X) =
        (readU32 X).map (fun p => (JRec.updateId p.1, p.2)) := by
      intro X
      unfold nextText
      rw [readTokenC_opname "UPDATE_ID".data (by decide) (by decide) (by decide) ' '
        (by decide) X]
      dsimp only
      rw [if_neg (by decide), if_pos rfl]
    rw [hdisp]
    rcases hrest with hnil | ⟨w, t, hwt, hw⟩
    · subst hnil
      rw [List.append_nil, readU32_spec_nil n (by omega)]
      exact ⟨[], rfl, rfl⟩
    · subst hwt
      rw [readU32_spec_ws n (by omega) w hw t]
      exact ⟨t, rfl, (skipWs_cons_of_ws t hw).symm⟩
  | deleteMessage n =>
    have hn : n ≤ B := hr
    have harr : encBodyFull (.deleteMessage n) ++ rest =
        "DELETE_MESSAGE".data ++ ' ' :: (natDigits n ++ rest) := by
      show ("DELETE_MESSAGE ".data ++ natDigits n) ++ rest = _
      have : ("DELETE_MESSAGE ".data : List Char) = "DELETE_MESSAGE".data ++ [' '] := by
        decide
      rw [this]
      simp
    rw [harr]
    have hdisp : ∀ X, nextText ("DELETE_MESSAGE".data ++ ' ' :: X) =
        (readU32 X).map (fun p => (JRec.deleteMessage p.1, p.2)) := by
      intro X
      unfold nextText
      rw [readTokenC_opname "DELETE_MESSAGE".data (by decide) (by decide) (by decide)
        ' ' (by decide) X]
      dsimp only
      rw [if_neg (by decide), if_neg (by decide), if_neg (by decide), if_pos rfl]
    rw [hdisp]
    rcases hrest with hnil | ⟨w, t, hwt, hw⟩
    · subst hnil
      rw [List.append_nil, readU32_spec_nil n (by omega)]
      exact ⟨[], rfl, rfl⟩
    · subst hwt
      rw [readU32_spec_ws n (by omega) w hw t]
      exact ⟨t, rfl, (skipWs_cons_of_ws t hw).symm⟩
  | newMessage s t rn c =>
    obtain ⟨⟨hqs, hls⟩, ⟨hqr, hlr⟩, hqc, hlc, hts⟩ := hr
    have harr : encBodyFull (.newMessage s t rn c) ++ rest =
        "NEW_MESSAGE".data ++ ' ' ::
          (qstr s ++ (' ' :: (natDigits t ++ (' ' ::
            (qstr rn ++ (' ' :: (qstr c ++ rest))))))) := by
      show ("NEW_MESSAGE ".data ++ qstr s ++ (' ' :: natDigits t) ++
        (' ' :: qstr rn) ++ (' ' :: qstr c)) ++ rest = _
      have : ("NEW_MESSAGE ".data : List Char) = "NEW_MESSAGE".data ++ [' '] := by
        decide
      rw [this]
      simp
    rw [harr]
    refine ⟨rest, ?_, rfl⟩
    unfold nextText
    rw [readTokenC_opname "NEW_MESSAGE".data (by decide) (by decide) (by decide) ' '
      (by decide) _]
    dsimp only
    rw [if_neg (by decide), if_neg (by decide), if_pos rfl]
    rw [readQuoted_spec s _ hqs (by omega)]
    dsimp only
    have hu : readU32 (' ' :: (natDigits t ++ (' ' ::
        (qstr rn ++ (' ' :: (qstr c ++ rest)))))) =
        some (t, qstr rn ++ (' ' :: (qstr c ++ rest))) := by
      rw [readU32_skipWs, skipWs_cons_of_ws _ (by decide), skipWs_natDigits]
      exact readU32_spec_ws t (by omega) ' ' (by decide) _
    rw [hu]
    dsimp only
    have hrn : readQuoted (qstr rn ++ (' ' :: (qstr c ++ rest))) =
        some (rn, ' ' :: (qstr c ++ rest)) :=
      readQuoted_spec rn _ hqr (by omega)
    rw [hrn]
    dsimp only
    have hcc : readQuoted (' ' :: (qstr c ++ rest)) = some (c, rest) := by
      rw [readQuoted_skipWs, skipWs_cons_of_ws _ (by decide), skipWs_qstr]
      exact readQuoted_spec c rest hqc (by omega)
    rw [hcc]
  | newGroup g ms =>
    obtain ⟨⟨hqg, hlg⟩, hms, hbody⟩ := hr
    have hcnt : ms.length < 2 ^ 31 := by
      have h1 := membersEnc_length_ge ms
      have h2 : (membersEnc ms).length ≤ (encBodyFull (.newGroup g ms)).length := by
        simp only [encBodyFull, membersEnc, List.length_append, List.length_cons]
        omega
      omega
    have harr : encBodyFull (.newGroup g ms) ++ rest =
        "NEW_GROUP".data ++ ' ' ::
          (qstr g ++ (' ' :: (natDigits ms.length ++ (' ' ::
            (membersEnc ms ++ rest))))) := by
      show ("NEW_GROUP ".data ++ qstr g ++ (' ' :: natDigits ms.length) ++
        (' ' :: membersEnc ms)) ++ rest = _
      have : ("NEW_GROUP ".data : List Char) = "NEW_GROUP".data ++ [' '] := by decide
      rw [this]
      simp [membersEnc]
    rw [harr]
    obtain ⟨rest2, hmem, hsk⟩ := readMembers_spec ms (membersEnc ms ++ rest) rest
      (fun m hm => ⟨(hms m hm).1, by have := (hms m hm).2; omega⟩) rfl
    refine ⟨rest2, ?_, hsk⟩
    unfold nextText
    rw [readTokenC_opname "NEW_GROUP".data (by decide) (by decide) (by decide) ' '
      (by decide) _]
    dsimp only
    rw [if_neg (by decide), if_neg (by decide), if_neg (by decide),
      if_neg (by decide), if_pos rfl]
    rw [readQuoted_spec g _ hqg (by omega)]
    dsimp only
    have hu : readU32 (' ' :: (natDigits ms.length ++ (' ' ::
        (membersEnc ms ++ rest)))) =
        some (ms.length, membersEnc ms ++ rest) := by
      rw [readU32_skipWs, skipWs_cons_of_ws _ (by decide), skipWs_natDigits]
      exact readU32_spec_ws ms.length hcnt ' ' (by decide) _
    rw [hu]
    dsimp only
    rw [hmem]

/-- A successful parse consumes at least one character (the token's
first character), so the recovery loop's fuel never runs out. -/
theorem nextText_consumes (cs : List Char) (r : JRec) (rest : List Char)
    (h : nextText cs = some (r, rest)) : rest.length < cs.length := by
  unfold nextText at h
  cases ht : readTokenC cs with
  | none => rw [ht] at h; simp at h
  | some p =>
    obtain ⟨tok, r0⟩ := p
    rw [ht] at h
    dsimp only at h
    have h0 : r0.length < cs.length := readTokenC_length cs tok r0 (by rw [ht])
    split at h
    · cases hq : readQuoted r0 with
      | none => rw [hq] at h; simp at h
      | some q =>
        rw [hq] at h
        simp at h
        have := readQuoted_length r0 q.1 q.2 (by rw [hq])
        obtain ⟨_, hr⟩ := h
        subst hr
        omega
    · split at h
      · cases hq : readU32 r0 with
        | none => rw [hq] at h; simp at h
        | some q =>
          rw [hq] at h
          simp at h
          have := readU32_length r0 q.1 q.2 (by rw [hq])
          obtain ⟨_, hr⟩ := h
          subst hr
          omega
      · split at h
        · cases hq1 : readQuoted r0 with
          | none => rw [hq1] at h; simp at h
          | some q1 =>
            obtain ⟨s1, r1⟩ := q1
            rw [hq1] at h
            dsimp only at h
            cases hq2 : readU32 r1 with
            | none => rw [hq2] at h; simp at h
            | some q2 =>
              obtain ⟨t2, r2⟩ := q2
              rw [hq2] at h
              dsimp only at h
              cases hq3 : readQuoted r2 with
              | none => rw [hq3] at h; simp at h
              | some q3 =>
                obtain ⟨rn3, r3⟩ := q3
                rw [hq3] at h
                dsimp only at h
                cases hq4 : readQuoted r3 with
                | none => rw [hq4] at h; simp at h
                | some q4 =>
                  obtain ⟨c4, r4⟩ := q4
                  rw [hq4] at h
                  dsimp only at h
                  simp at h
                  have l1 := readQuoted_length r0 s1 r1 (by rw [hq1])
                  have l2 := readU32_length r1 t2 r2 (by rw [hq2])
                  have l3 := readQuoted_length r2 rn3 r3 (by rw [hq3])
                  have l4 := readQuoted_length r3 c4 r4 (by rw [hq4])
                  obtain ⟨_, hr⟩ := h
                  subst hr
                  omega
        · split at h
          · cases hq : readU32 r0 with
            | none => rw [hq] at h; simp at h
            | some q =>
              rw [hq] at h
              simp at h
              have := readU32_length r0 q.1 q.2 (by rw [hq])
              obtain ⟨_, hr⟩ := h
              subst hr
              omega
          · split at h
            · cases hq1 : readQuoted r0 with
              | none => rw [hq1] at h; simp at h
              | some q1 =>
                obtain ⟨g1, r1⟩ := q1
                rw [hq1] at h
                dsimp only at h
                cases hq2 : readU32 r1 with
                | none => rw [hq2] at h; simp at h
                | some q2 =>
                  obtain ⟨cnt, r2⟩ := q2
                  rw [hq2] at h
                  dsimp only at h
                  cases hq3 : readMembers cnt r2 with
                  | none => rw [hq3] at h; simp at h
                  | some q3 =>
                    obtain ⟨ms3, r3⟩ := q3
                    rw [hq3] at h
                    dsimp only at h
                    simp at h
                    have l1 := readQuoted_length r0 g1 r1 (by rw [hq1])
                    have l2 := readU32_length r1 cnt r2 (by rw [hq2])
                    have l3 := readMembers_length cnt r2 ms3 r3 (by rw [hq3])
                    obtain ⟨_, hr⟩ := h
                    subst hr
                    omega
            · simp at h

/-- The fuel supplied by `replayFrom` is interchangeable with any other
sufficient fuel. -/
theorem replayFuel_adequate : ∀ (fuel : Nat) (st : SState) (cs : List Char),
    cs.length < fuel → replayFuel fuel st cs = replayFrom st cs := by
  intro fuel
  induction fuel using Nat.strong_induction_on with
  | _ fuel ih =>
    intro st cs hlen
    cases fuel with
    | zero => omega
    | succ n =>
      unfold replayFrom
      conv_lhs => unfold replayFuel
      conv_rhs => unfold replayFuel
      by_cases hm : (skipWs cs).isEmpty = true
      · rw [if_pos hm, if_pos hm]
      · rw [if_neg hm, if_neg hm]
        cases hnt : nextText cs with
        | none => rfl
        | some p =>
          obtain ⟨r, rest⟩ := p
          dsimp only
          have hlt := nextText_consumes cs r rest hnt
          rw [ih n (by omega) (applyRec st r) rest (by omega),
            ih cs.length (by omega) (applyRec st r) rest (by omega)]

/-- Recovery of the journal text committed for `recs` replays exactly the
abstract records, provided every record is wellformed. -/
theorem replay_encJournal : ∀ (recs : List JRec) (B : Nat), B < 2 ^ 31 →
    (∀ r ∈ recs, wfRecB B r) →
    ∀ (st : SState) (cs : List Char), skipWs cs = skipWs (encJournal recs) →
    replayFrom st cs = recs.foldl applyRec st := by
  intro recs
  induction recs with
  | nil =>
    intro B hB hwf st cs hskip
    have hempty : skipWs cs = [] := by
      simpa [encJournal, skipWs] using hskip
    unfold replayFrom
    conv_lhs => unfold replayFuel
    rw [if_pos (by simp [hempty])]
    rfl
  | cons r rs ih =>
    intro B hB hwf st cs hskip
    have henc : encJournal (r :: rs) = encLine r ++ encJournal rs := by
      simp [encJournal]
    have hrest : encJournal rs = [] ∨
        ∃ w t, encJournal rs = w :: t ∧ isWs w = true := by
      cases rs with
      | nil => left; simp [encJournal]
      | cons r2 rs2 =>
        right
        refine ⟨'\n', (encBodyFull r2).take 1023 ++ encJournal rs2, ?_, by decide⟩
        simp [encJournal, encLine]
    obtain ⟨rest2, hnt, hsk⟩ := nextLine_spec B hB r (hwf r (by simp)) (encJournal rs) hrest
    have hntc : nextText cs = some (r, rest2) := by
      rw [nextText_skipWs cs, hskip, ← nextText_skipWs (encJournal (r :: rs)), henc]
      exact hnt
    have hne : (skipWs cs).isEmpty = false := by
      cases hE : (skipWs cs).isEmpty with
      | false => rfl
      | true =>
        have hemp : skipWs cs = [] := by simpa using hE
        rw [nextText_of_ws_empty cs hemp] at hntc
        exact absurd hntc (by simp)
    unfold replayFrom
    conv_lhs => unfold replayFuel
    rw [if_neg (by simp [hne]), hntc]
    dsimp only
    have hlt := nextText_consumes cs r rest2 hntc
    rw [replayFuel_adequate cs.length (applyRec st r) rest2 (by omega)]
    rw [ih B hB (fun x hx => hwf x (by simp [hx])) (applyRec st r) rest2 (by rw [hsk])]
    rfl

theorem fanoutMsgs_cons (content sname : String) (us : List SUser) (m : String)
    (rest : List String) (k : Nat) :
    fanoutMsgs content sname us (m :: rest) k =
      (match find_user_index_by_name us m with
       | none => []
       | some ri => [⟨content, (us.getD ri default).name, sname, (k : Int)⟩]) ++
        fanoutMsgs content sname us rest (k + 1) := rfl

theorem updRecs_succ (mid n : Nat) :
    updRecs mid (n + 1) = .updateId (mid + 1) :: updRecs (mid + 1) n := rfl

theorem find_user_index_by_name_congr (us vs : List SUser)
    (h : us.map (fun u => u.name) = vs.map (fun u => u.name)) (n : String) :
    find_user_index_by_name us n = find_user_index_by_name vs n := by
  unfold find_user_index_by_name
  have h1 : us.findIdx? (fun u => u.name == n) =
      (us.map (fun u => u.name)).findIdx? (fun s => s == n) := by
    rw [List.findIdx?_map]
    rfl
  have h2 : vs.findIdx? (fun u => u.name == n) =
      (vs.map (fun u => u.name)).findIdx? (fun s => s == n) := by
    rw [List.findIdx?_map]
    rfl
  rw [h1, h2, h]

theorem users_getD_name_eq (us vs : List SUser)
    (h : us.map (fun u => u.name) = vs.map (fun u => u.name)) (i : Nat)
    (hi : i < us.length) :
    (us.getD i default).name = (vs.getD i default).name := by
  have h1 : ((us.map (fun u => u.name)).getD i ((default : SUser).name)) =
      (us.getD i default).name := List.getD_map _ _ _
  have h2 : ((vs.map (fun u => u.name)).getD i ((default : SUser).name)) =
      (vs.getD i default).name := List.getD_map _ _ _
  rw [← h1, ← h2, h]

theorem fanoutMsgs_congr (content sname : String) (us vs : List SUser)
    (h : us.map (fun u => u.name) = vs.map (fun u => u.name)) :
    ∀ (ms : List String) (k : Nat),
      fanoutMsgs content sname us ms k = fanoutMsgs content sname vs ms k := by
  intro ms
  induction ms with
  | nil => intro k; rfl
  | cons m rest ih =>
    intro k
    unfold fanoutMsgs
    rw [ih (k + 1)]
    rw [find_user_index_by_name_congr us vs h m]
    cases hf : find_user_index_by_name vs m with
    | none => rfl
    | some ri =>
      dsimp only
      have hlt : ri < vs.length := findIdx?_lt hf
      have hlen : us.length = vs.length := by
        have := congrArg List.length h
        simpa using this
      rw [users_getD_name_eq us vs h ri (by omega)]

/-- Characterisation of the live fan-out loop. -/
theorem group_fanout_chars (content sname : String) :
    ∀ (ms : List String) (stl : SState) (mid : Nat), stl.next_id = mid →
      group_fanout content sname ms stl mid =
        ({ stl with
            messages := stl.messages ++ fanoutMsgs content sname stl.users ms mid,
            next_id := mid + ms.length }, updRecs mid ms.length) := by
  intro ms
  induction ms with
  | nil =>
    intro stl mid hcnt
    unfold group_fanout
    rw [Prod.mk.injEq]
    constructor
    · cases stl
      simp [fanoutMsgs]
      simp at hcnt
      omega
    · rfl
  | cons m rest ih =>
    intro stl mid hcnt
    unfold group_fanout
    cases hf : find_user_index_by_name stl.users m with
    | none =>
      dsimp only [get_next_id]
      rw [hcnt]
      rw [ih { stl with next_id := mid + 1 } (mid + 1) rfl]
      dsimp only
      rw [Prod.mk.injEq]
      constructor
      · show _ = { stl with
          messages := stl.messages ++ fanoutMsgs content sname stl.users (m :: rest) mid,
          next_id := mid + (m :: rest).length }
        rw [fanoutMsgs_cons, hf]
        cases stl
        simp
        omega
      · show JRec.updateId (mid + 1) :: updRecs (mid + 1) rest.length =
          updRecs mid (m :: rest).length
        simp only [List.length_cons, updRecs_succ]
    | some ri =>
      dsimp only [get_next_id]
      rw [hcnt]
      rw [ih { stl with
          messages := stl.messages ++
            [⟨content, (stl.users.getD ri default).name, sname, (mid : Int)⟩],
          next_id := mid + 1 } (mid + 1) rfl]
      dsimp only
      rw [Prod.mk.injEq]
      constructor
      · show _ = { stl with
          messages := stl.messages ++ fanoutMsgs content sname stl.users (m :: rest) mid,
          next_id := mid + (m :: rest).length }
        rw [fanoutMsgs_cons, hf]
        cases stl
        simp
        omega
      · show JRec.updateId (mid + 1) :: updRecs (mid + 1) rest.length =
          updRecs mid (m :: rest).length
        simp only [List.length_cons, updRecs_succ]

/-- Characterisation of the replay fan-out loop (group branch of the
recovery `NEW_MESSAGE` case), valid when every member resolves. -/
theorem replay_fanout_chars (content sname : String) :
    ∀ (ms : List String) (sr : SState) (mid : Nat), sr.next_id = mid →
      (∀ m ∈ ms, find_user_index_by_name sr.users m ≠ none) →
      replay_fanout content sname ms sr =
        { sr with
            messages := sr.messages ++ fanoutMsgs content sname sr.users ms mid,
            next_id := mid + ms.length } := by
  intro ms
  induction ms with
  | nil =>
    intro sr mid hcnt _
    unfold replay_fanout
    cases sr
    simp [fanoutMsgs]
    simp at hcnt
    omega
  | cons m rest ih =>
    intro sr mid hcnt hres
    unfold replay_fanout
    cases hf : find_user_index_by_name sr.users m with
    | none => exact absurd hf (hres m (by simp))
    | some ri =>
      dsimp only
      rw [ih { sr with
          messages := sr.messages ++
            [⟨content, (sr.users.getD ri default).name, sname, (sr.next_id : Int)⟩],
          next_id := sr.next_id + 1 } (mid + 1) (by simp [hcnt])
        (fun x hx => hres x (by simp [hx]))]
      show _ = { sr with
        messages := sr.messages ++ fanoutMsgs content sname sr.users (m :: rest) mid,
        next_id := mid + (m :: rest).length }
      rw [fanoutMsgs_cons, hf]
      cases sr
      simp at hcnt ⊢
      subst hcnt
      simp
      omega

/-- For `n ≥ 1`, replaying the `UPDATE_ID` records of a fan-out sets the
counter to the final allocated value, leaving everything else unchanged. -/
theorem foldl_updRecs_pos : ∀ (n mid : Nat) (s : SState), 0 < n →
    (updRecs mid n).foldl applyRec s = { s with next_id := mid + n } := by
  intro n
  induction n with
  | zero => intro mid s h; omega
  | succ k ih =>
    intro mid s _
    rw [updRecs_succ, List.foldl_cons]
    have happ : applyRec s (.updateId (mid + 1)) = { s with next_id := mid + 1 } := rfl
    rw [happ]
    by_cases hk : k = 0
    · subst hk
      rfl
    · rw [ih (mid + 1) { s with next_id := mid + 1 } (by omega)]
      cases s
      simp
      omega

/-- Applying the trailing `UPDATE_ID` records of a fan-out to a state
whose counter already has the final value leaves the state unchanged. -/
theorem foldl_updRecs : ∀ (n mid : Nat) (s : SState), s.next_id = mid + n →
    (updRecs mid n).foldl applyRec s = s := by
  intro n mid s hs
  cases n with
  | zero => rfl
  | succ k =>
    rw [foldl_updRecs_pos (k + 1) mid s (by omega)]
    cases s
    simp at hs ⊢
    omega

theorem map_name_of_map_freshUser {us vs : List SUser}
    (h : us.map freshUser = vs.map freshUser) :
    us.map (fun u => u.name) = vs.map (fun u => u.name) := by
  have h2 := congrArg (List.map (fun u : SUser => u.name)) h
  rw [List.map_map, List.map_map] at h2
  exact h2

theorem mark_offline_fields (st : SState) (fd : Nat) :
    (mark_offline st fd).groups = st.groups ∧
    (mark_offline st fd).messages = st.messages ∧
    (mark_offline st fd).next_id = st.next_id ∧
    (mark_offline st fd).users.map freshUser = st.users.map freshUser := by
  unfold mark_offline
  cases h : find_user_index_by_socket_fd st.users fd with
  | none => exact ⟨rfl, rfl, rfl, rfl⟩
  | some j =>
    refine ⟨rfl, rfl, rfl, ?_⟩
    exact map_set_getD _ default _ j _ rfl

theorem goodbye_fields (st : SState) (sock : Nat) :
    (goodbye st sock).state.groups = st.groups ∧
    (goodbye st sock).state.messages = st.messages ∧
    (goodbye st sock).state.next_id = st.next_id := by
  unfold goodbye
  cases st.conns.findIdx? (fun c => c.1 == sock) <;> exact ⟨rfl, rfl, rfl⟩

theorem prune_loop_fields (now : Nat) :
    ∀ (fuel : Nat) (st : SState) (i : Nat),
      (prune_loop now fuel st i).groups = st.groups ∧
      (prune_loop now fuel st i).messages = st.messages ∧
      (prune_loop now fuel st i).next_id = st.next_id ∧
      (prune_loop now fuel st i).users.map freshUser = st.users.map freshUser := by
  intro fuel
  induction fuel with
  | zero => intro st i; exact ⟨rfl, rfl, rfl, rfl⟩
  | succ n ih =>
    intro st i
    unfold prune_loop
    split
    · split
      · obtain ⟨h1, h2, h3, h4⟩ :=
          ih (goodbye (mark_offline st ((st.conns.getD i (0, 0)).1))
            ((st.conns.getD i (0, 0)).1)).state (i + 1)
        obtain ⟨g1, g2, g3⟩ :=
          goodbye_fields (mark_offline st ((st.conns.getD i (0, 0)).1))
            ((st.conns.getD i (0, 0)).1)
        obtain ⟨m1, m2, m3, m4⟩ := mark_offline_fields st ((st.conns.getD i (0, 0)).1)
        refine ⟨?_, ?_, ?_, ?_⟩
        · rw [h1, g1, m1]
        · rw [h2, g2, m2]
        · rw [h3, g3, m3]
        · rw [h4, goodbye_users, m4]
      · exact ih st (i + 1)
    · exact ⟨rfl, rfl, rfl, rfl⟩

theorem find_user_none_not_mem (us : List SUser) (n : String)
    (h : find_user_index_by_name us n = none) :
    n ∉ us.map (fun u => u.name) := by
  unfold find_user_index_by_name at h
  rw [List.findIdx?_eq_none_iff] at h
  intro hmem
  rw [List.mem_map] at hmem
  obtain ⟨u, hu, hn⟩ := hmem
  have := h u hu
  rw [hn] at this
  simp at this

theorem find_user_mem_ne_none (us : List SUser) (n : String)
    (h : n ∈ us.map (fun u => u.name)) :
    find_user_index_by_name us n ≠ none :=
  fun hn => find_user_none_not_mem us n hn h

theorem find_user_some_mem (us : List SUser) (n : String) (i : Nat)
    (h : find_user_index_by_name us n = some i) :
    n ∈ us.map (fun u => u.name) := by
  have hlt : i < us.length := findIdx?_lt h
  have hname := name_eq_of_find_user us n i h
  rw [List.mem_map]
  refine ⟨us.getD i default, ?_, hname⟩
  have hg : us.getD i default = us[i] := by
    rw [List.getD_eq_getElem?_getD, List.getElem?_eq_getElem hlt]
    rfl
  rw [hg]
  exact List.getElem_mem hlt

theorem mem_updRecs : ∀ (n mid : Nat) (rec : JRec), rec ∈ updRecs mid n →
    ∃ k, 1 ≤ k ∧ k ≤ n ∧ rec = .updateId (mid + k) := by
  intro n
  induction n with
  | zero => intro mid rec h; simp [updRecs] at h
  | succ m ih =>
    intro mid rec h
    rw [updRecs_succ] at h
    rcases List.mem_cons.mp h with h1 | h2
    · exact ⟨1, le_refl 1, by omega, h1⟩
    · obtain ⟨k, hk1, hk2, hk3⟩ := ih (mid + 1) rec h2
      refine ⟨k + 1, by omega, by omega, ?_⟩
      rw [hk3]
      congr 1
      omega

theorem fanoutMsgs_id_bound (content sname : String) (us : List SUser) :
    ∀ (ms : List String) (k : Nat) (msg : SMsg),
      msg ∈ fanoutMsgs content sname us ms k →
      0 ≤ msg.id ∧ msg.id ≤ ((k + ms.length : Nat) : Int) := by
  intro ms
  induction ms with
  | nil => intro k msg h; simp [fanoutMsgs] at h
  | cons m rest ih =>
    intro k msg h
    rw [fanoutMsgs_cons, List.mem_append] at h
    rcases h with h1 | h2
    · cases hf : find_user_index_by_name us m with
      | none => rw [hf] at h1; simp at h1
      | some ri =>
        rw [hf] at h1
        simp at h1
        subst h1
        refine ⟨by simp, ?_⟩
        show ((k : Int)) ≤ ((k + (m :: rest).length : Nat) : Int)
        push_cast
        omega
    · obtain ⟨hb1, hb2⟩ := ih (k + 1) msg h2
      refine ⟨hb1, le_trans hb2 ?_⟩
      simp only [List.length_cons]
      push_cast
      omega

theorem runCmds_snoc (cs : List Cmd) (c : Cmd) :
    runCmds (cs ++ [c]) = stepRun (runCmds cs) c := by
  unfold runCmds
  rw [List.foldl_append]
  rfl

theorem replayOf_stepRun (r : Run) (c : Cmd) :
    replayOf (stepRun r c) = ((step r.state c).recs).foldl applyRec (replayOf r) := by
  show (r.recs ++ (step r.state c).recs).foldl applyRec initState = _
  rw [List.foldl_append]
  rfl

/-- The ID counter never decreases across a step of the live server. -/
theorem step_next_id_mono (st : SState) (c : Cmd) :
    st.next_id ≤ (step st c).state.next_id := by
  cases c with
  | accept sock now => exact Nat.le_refl _
  | register sock name =>
    show st.next_id ≤ (register_user st sock name).state.next_id
    unfold register_user
    cases hf : find_user_index_by_name st.users name <;> simp
  | login sock name now =>
    show st.next_id ≤ (login st sock name now).state.next_id
    unfold login
    cases hf : find_user_index_by_name st.users name with
    | none => simp
    | some i =>
      dsimp only
      split
      · simp
      · dsimp only [get_next_id]
        omega
  | logout sock sid =>
    show st.next_id ≤ (logout st sock sid).state.next_id
    unfold logout
    cases ha : auth_index st sid sock <;> simp
  | setStatus sock sid payload =>
    show st.next_id ≤ (set_status st sock sid payload).state.next_id
    unfold set_status
    cases ha : auth_index st sid sock with
    | none => simp
    | some i =>
      dsimp only
      split <;> simp
  | sendMessage sock sid rtype rname content =>
    show st.next_id ≤ (send_message st sock sid rtype rname content).state.next_id
    unfold send_message
    cases ha : auth_index st sid sock with
    | none => simp
    | some i =>
      dsimp only
      split
      · cases hr : find_user_index_by_name st.users rname with
        | none => simp
        | some ri =>
          dsimp only
          split
          · simp
          · dsimp only [get_next_id]
            omega
      · cases hg : find_group_index_by_name st.groups rname with
        | none => simp
        | some gi =>
          dsimp only
          split
          · simp
          · dsimp only [get_next_id]
            rw [group_fanout_chars content ((st.users.getD i default).name)
              ((st.groups.getD gi default).users) { st with next_id := st.next_id + 1 }
              (st.next_id + 1) rfl]
            dsimp only
            omega
  | deleteMessage sock sid mid =>
    show st.next_id ≤ (delete_message st sock sid mid).state.next_id
    unfold delete_message
    cases ha : auth_index st sid sock with
    | none => simp
    | some i =>
      dsimp only
      cases hm : find_message_index_by_id st.messages mid with
      | none => simp
      | some mi =>
        dsimp only
        split <;> simp
  | getMessages sock sid =>
    show st.next_id ≤ (get_messages st sock sid).state.next_id
    unfold get_messages
    cases ha : auth_index st sid sock <;> simp
  | getUsers sock sid now =>
    show st.next_id ≤ (get_users st sock sid now).state.next_id
    unfold get_users
    cases hf : find_user_index_by_id st.users sid with
    | none => simp
    | some i =>
      dsimp only
      split <;> simp
  | getGroups sock sid =>
    show st.next_id ≤ (get_groups st sock sid).state.next_id
    unfold get_groups
    cases hf : find_user_index_by_id st.users sid with
    | none => simp
    | some i =>
      dsimp only
      split <;> simp
  | registerGroup sock gname members =>
    show st.next_id ≤ (register_group st sock gname members).state.next_id
    unfold register_group
    cases hf : find_group_index_by_name st.groups gname with
    | some i => simp
    | none =>
      dsimp only
      split <;> simp
  | heartbeat sock now =>
    show st.next_id ≤ (Chat.heartbeat st sock now).state.next_id
    unfold Chat.heartbeat
    cases hf : st.conns.findIdx? (fun c => c.1 == sock) <;> simp
  | goodbye sock =>
    show st.next_id ≤ (Chat.goodbye st sock).state.next_id
    exact le_of_eq (goodbye_fields st sock).2.2.symm
  | prune now =>
    show st.next_id ≤ (prune_dead_connections now st).next_id
    unfold prune_dead_connections
    exact le_of_eq (prune_loop_fields now (st.conns.length + 1) st 0).2.2.1.symm

/-- A step that commits no record and preserves the replay-visible
fields of the store preserves the simulation invariant. -/
theorem simInv_silent (B : Nat) (r : Run) (c : Cmd)
    (h2 : (step r.state c).recs = [])
    (hu : (step r.state c).state.users.map freshUser = r.state.users.map freshUser)
    (hg : (step r.state c).state.groups = r.state.groups)
    (hm : (step r.state c).state.messages = r.state.messages)
    (hn : (step r.state c).state.next_id = r.state.next_id)
    (hinv : simInv B r) : simInv B (stepRun r c) := by
  obtain ⟨hU, hG, hM, hN, hW, hUN, hGN, hMI⟩ := hinv
  have hr : (stepRun r c).recs = r.recs := by
    show r.recs ++ (step r.state c).recs = r.recs
    rw [h2, List.append_nil]
  have hrep : replayOf (stepRun r c) = replayOf r := by
    rw [replayOf_stepRun, h2]
    rfl
  have hst : (stepRun r c).state = (step r.state c).state := rfl
  have hname := map_name_of_map_freshUser hu
  refine ⟨?_, ?_, ?_, ?_, ?_, ?_, ?_, ?_⟩
  · rw [hrep, hst, hu]; exact hU
  · rw [hrep, hst, hg]; exact hG
  · rw [hrep, hst, hm]; exact hM
  · rw [hrep, hst, hn]; exact hN
  · rw [hr]; exact hW
  · intro n hn2
    rw [hst, hname] at hn2
    exact hUN n hn2
  · intro g hg2
    rw [hst, hg] at hg2
    obtain ⟨w1, w2⟩ := hGN g hg2
    refine ⟨w1, fun m hm2 => ?_⟩
    rw [hst, hname]
    exact w2 m hm2
  · intro m hm2
    rw [hst, hm] at hm2
    have := hMI m hm2
    rw [hst, hn]
    exact this

theorem map_name_map_freshUser (us : List SUser) :
    (us.map freshUser).map (fun u => u.name) = us.map (fun u => u.name) := by
  rw [List.map_map]
  rfl

theorem getD_mem {α} [Inhabited α] (l : List α) (i : Nat) (h : i < l.length) :
    l.getD i default ∈ l := by
  have hg : l.getD i default = l[i] := by
    rw [List.getD_eq_getElem?_getD, List.getElem?_eq_getElem h]
    rfl
  rw [hg]
  exact List.getElem_mem h

theorem getD_name_mem (us : List SUser) (i : Nat) (h : i < us.length) :
    (us.getD i default).name ∈ us.map (fun u => u.name) := by
  rw [List.mem_map]
  exact ⟨us.getD i default, getD_mem us i h, rfl⟩

theorem auth_index_lt {st : SState} {sid : Int} {sock : Nat} {i : Nat}
    (h : auth_index st sid sock = some i) : i < st.users.length := by
  unfold auth_index at h
  cases hf : find_user_index_by_id st.users sid with
  | none => rw [hf] at h; exact absurd h (by simp)
  | some j =>
    rw [hf] at h
    dsimp only at h
    by_cases h1 : (st.users.getD j default).logged_in = false
    · rw [if_pos h1] at h; exact absurd h (by simp)
    · rw [if_neg h1] at h
      by_cases h2 : (st.users.getD j default).connection_fd ≠ (sock : Int)
      · rw [if_pos h2] at h; exact absurd h (by simp)
      · rw [if_neg h2] at h
        have hji : j = i := Option.some.inj h
        subst hji
        exact findIdx?_lt hf

theorem name_eq_of_find_group (gs : List SGroup) (a : String) (gi : Nat)
    (h : find_group_index_by_name gs a = some gi) :
    (gs.getD gi default).name = a := by
  have := findIdx?_getD default h
  simpa using this

theorem applyRec_newMessage_user (s : SState) (sname rname content : String)
    (t : Nat) (ht : t = RECIPIENT_TYPE_USER) (si ri : Nat)
    (hs : find_user_index_by_name s.users sname = some si)
    (hr : find_user_index_by_name s.users rname = some ri) :
    applyRec s (.newMessage sname t rname content) =
      { s with messages := s.messages ++
          [{ content := content, recipient := (s.users.getD ri default).name,
             sender := (s.users.getD si default).name, id := (s.next_id : Int) }] } := by
  unfold applyRec
  dsimp only
  rw [hs]
  dsimp only
  rw [if_pos ht, hr]

theorem applyRec_newMessage_group (s : SState) (sname rname content : String)
    (t : Nat) (ht0 : ¬t = RECIPIENT_TYPE_USER) (ht1 : t = RECIPIENT_TYPE_GROUP)
    (si gi : Nat)
    (hs : find_user_index_by_name s.users sname = some si)
    (hg : find_group_index_by_name s.groups rname = some gi) :
    applyRec s (.newMessage sname t rname content) =
      replay_fanout content (s.users.getD si default).name
        (s.groups.getD gi default).users s := by
  unfold applyRec
  dsimp only
  rw [hs]
  dsimp only
  rw [if_neg ht0, if_pos ht1, hg]

theorem applyRec_deleteMessage (s : SState) (v : Nat) (mi : Nat)
    (h : find_message_index_by_id s.messages (v : Int) = some mi) :
    applyRec s (.deleteMessage v) = { s with messages := s.messages.eraseIdx mi } := by
  unfold applyRec
  dsimp only
  rw [h]

theorem map_freshUser_set (l : List SUser) (i : Nat) (a : SUser)
    (h : a.name = (l.getD i default).name) :
    (l.set i a).map freshUser = l.map freshUser :=
  map_set_getD freshUser default l i a (by unfold freshUser; rw [h])

theorem map_name_set (l : List SUser) (i : Nat) (a : SUser)
    (h : a.name = (l.getD i default).name) :
    (l.set i a).map (fun u => u.name) = l.map (fun u => u.name) :=
  map_set_getD _ default l i a h

/-- One live step preserves the simulation invariant, provided the
command's wire inputs are wellformed and the counter stays below the
global bound. -/
theorem sim_step (B : Nat) (hB : B < 2 ^ 31) (r : Run) (c : Cmd)
    (hinv : simInv B r) (hwfc : wfCmd c)
    (hbound : (stepRun r c).state.next_id ≤ B) : simInv B (stepRun r c) := by
  cases c with
  | accept sock now =>
    exact simInv_silent B r _ rfl rfl rfl rfl rfl hinv
  | register sock name =>
    cases hf : find_user_index_by_name r.state.users name with
    | some j =>
      have hres : step r.state (.register sock name) =
          { state := r.state, sent := [.status .INVALID_REQUEST] } := by
        show register_user r.state sock name = _
        unfold register_user
        rw [hf]
      exact simInv_silent B r _ (by rw [hres]) (by rw [hres]) (by rw [hres])
        (by rw [hres]) (by rw [hres]) hinv
    | none =>
      obtain ⟨hU, hG, hM, hN, hW, hUN, hGN, hMI⟩ := hinv
      have hres : step r.state (.register sock name) =
          { state := { r.state with users := r.state.users ++ [{ name := name }] },
            recs := [.newUser name], sent := [.status .SUCCESS] } := by
        show register_user r.state sock name = _
        unfold register_user
        rw [hf]
      have hst : (stepRun r (.register sock name)).state =
          { r.state with users := r.state.users ++ [{ name := name }] } := by
        show (step r.state (.register sock name)).state = _
        rw [hres]
      have hrecs : (stepRun r (.register sock name)).recs =
          r.recs ++ [.newUser name] := by
        show r.recs ++ (step r.state (.register sock name)).recs = _
        rw [hres]
      have hrep : replayOf (stepRun r (.register sock name)) =
          { replayOf r with users := (replayOf r).users ++ [{ name := name }] } := by
        rw [replayOf_stepRun, hres]
        rfl
      refine ⟨?_, ?_, ?_, ?_, ?_, ?_, ?_, ?_⟩
      · rw [hrep, hst]
        dsimp only
        rw [List.map_append, hU]
        rfl
      · rw [hrep, hst]
        dsimp only
        exact hG
      · rw [hrep, hst]
        dsimp only
        exact hM
      · rw [hrep, hst]
        dsimp only
        exact hN
      · rw [hrecs]
        intro rec hrec
        rcases List.mem_append.mp hrec with h1 | h2
        · exact hW rec h1
        · rw [List.mem_singleton] at h2
          subst h2
          exact hwfc
      · rw [hst]
        dsimp only
        intro n2 hn2
        rw [List.map_append, List.mem_append] at hn2
        rcases hn2 with h1 | h2
        · exact hUN n2 h1
        · simp at h2
          subst h2
          exact hwfc
      · rw [hst]
        dsimp only
        intro g hg2
        obtain ⟨w1, w2⟩ := hGN g hg2
        refine ⟨w1, fun m hm2 => ?_⟩
        rw [List.map_append, List.mem_append]
        exact Or.inl (w2 m hm2)
      · rw [hst]
        dsimp only
        exact hMI
  | login sock name now =>
    cases hf : find_user_index_by_name r.state.users name with
    | none =>
      have hres : step r.state (.login sock name now) =
          { state := r.state, sent := [.num (-1), .status .INVALID_REQUEST] } := by
        show login r.state sock name now = _
        unfold login
        rw [hf]
      exact simInv_silent B r _ (by rw [hres]) (by rw [hres]) (by rw [hres])
        (by rw [hres]) (by rw [hres]) hinv
    | some i =>
      by_cases hlog : (r.state.users.getD i default).logged_in = true
      · have hres : step r.state (.login sock name now) =
            { state := r.state, sent := [.num (-1), .status .INVALID_REQUEST] } := by
          show login r.state sock name now = _
          unfold login
          rw [hf]
          dsimp only
          rw [if_pos hlog]
        exact simInv_silent B r _ (by rw [hres]) (by rw [hres]) (by rw [hres])
          (by rw [hres]) (by rw [hres]) hinv
      · obtain ⟨hU, hG, hM, hN, hW, hUN, hGN, hMI⟩ := hinv
        have hres : step r.state (.login sock name now) =
            { state := { r.state with
                next_id := r.state.next_id + 1,
                users := r.state.users.set i
                  { r.state.users.getD i default with
                    status := "Online", logged_in := true,
                    last_heartbeat_time := u32 now,
                    id := ((r.state.next_id + 1 : Nat) : Int),
                    connection_fd := (sock : Int) } },
              recs := [.updateId (r.state.next_id + 1)],
              sent := [.num ((r.state.next_id + 1 : Nat) : Int), .status .SUCCESS] } := by
          show login r.state sock name now = _
          unfold login
          rw [hf]
          dsimp only
          rw [if_neg hlog]
          dsimp only [get_next_id]
        have hst : (stepRun r (.login sock name now)).state =
            { r.state with
              next_id := r.state.next_id + 1,
              users := r.state.users.set i
                { r.state.users.getD i default with
                  status := "Online", logged_in := true,
                  last_heartbeat_time := u32 now,
                  id := ((r.state.next_id + 1 : Nat) : Int),
                  connection_fd := (sock : Int) } } := by
          show (step r.state (.login sock name now)).state = _
          rw [hres]
        have hrecs : (stepRun r (.login sock name now)).recs =
            r.recs ++ [.updateId (r.state.next_id + 1)] := by
          show r.recs ++ (step r.state (.login sock name now)).recs = _
          rw [hres]
        have hrep : replayOf (stepRun r (.login sock name now)) =
            { replayOf r with next_id := r.state.next_id + 1 } := by
          rw [replayOf_stepRun, hres]
          rfl
        have hb2 : r.state.next_id + 1 ≤ B := by
          rw [hst] at hbound
          exact hbound
        refine ⟨?_, ?_, ?_, ?_, ?_, ?_, ?_, ?_⟩
        · rw [hrep, hst]
          dsimp only
          rw [map_freshUser_set]
          · exact hU
          · rfl
        · rw [hrep, hst]
          dsimp only
          exact hG
        · rw [hrep, hst]
          dsimp only
          exact hM
        · rw [hrep, hst]
        · rw [hrecs]
          intro rec hrec
          rcases List.mem_append.mp hrec with h1 | h2
          · exact hW rec h1
          · rw [List.mem_singleton] at h2
            subst h2
            exact hb2
        · rw [hst]
          dsimp only
          intro n2 hn2
          rw [map_name_set] at hn2
          · exact hUN n2 hn2
          · rfl
        · rw [hst]
          dsimp only
          intro g hg2
          obtain ⟨w1, w2⟩ := hGN g hg2
          refine ⟨w1, fun m hm2 => ?_⟩
          rw [map_name_set]
          · exact w2 m hm2
          · rfl
        · rw [hst]
          dsimp only
          intro m hm2
          obtain ⟨b1, b2⟩ := hMI m hm2
          refine ⟨b1, le_trans b2 ?_⟩
          push_cast
          omega
  | logout sock sid =>
    cases ha : auth_index r.state sid sock with
    | none =>
      have hres : step r.state (.logout sock sid) =
          { state := r.state, sent := [.status .INVALID_REQUEST] } := by
        show logout r.state sock sid = _
        unfold logout
        rw [ha]
      exact simInv_silent B r _ (by rw [hres]) (by rw [hres]) (by rw [hres])
        (by rw [hres]) (by rw [hres]) hinv
    | some i =>
      have hres : step r.state (.logout sock sid) =
          { state := { r.state with
              users := r.state.users.set i
                { r.state.users.getD i default with
                  status := "Offline", logged_in := false,
                  last_heartbeat_time := 0, id := -1 } },
            sent := [.status .SUCCESS] } := by
        show logout r.state sock sid = _
        unfold logout
        rw [ha]
      exact simInv_silent B r _ (by rw [hres])
        (by rw [hres]; dsimp only; exact map_set_getD freshUser default _ i _ rfl)
        (by rw [hres]) (by rw [hres]) (by rw [hres]) hinv
  | setStatus sock sid payload =>
    cases ha : auth_index r.state sid sock with
    | none =>
      have hres : step r.state (.setStatus sock sid payload) =
          { state := r.state, sent := [.status .INVALID_REQUEST] } := by
        show set_status r.state sock sid payload = _
        unfold set_status
        rw [ha]
      exact simInv_silent B r _ (by rw [hres]) (by rw [hres]) (by rw [hres])
        (by rw [hres]) (by rw [hres]) hinv
    | some i =>
      by_cases hp : payload.length = 0 ∨ payload.length > CHAT_MAX_STATUS_LENGTH
      · have hres : step r.state (.setStatus sock sid payload) =
            { state := r.state, sent := [.status .SUCCESS, .status .INVALID_REQUEST] } := by
          show set_status r.state sock sid payload = _
          unfold set_status
          rw [ha]
          dsimp only
          rw [if_pos hp]
        exact simInv_silent B r _ (by rw [hres]) (by rw [hres]) (by rw [hres])
          (by rw [hres]) (by rw [hres]) hinv
      · have hres : step r.state (.setStatus sock sid payload) =
            { state := { r.state with
                users := r.state.users.set i
                  { r.state.users.getD i default with status := payload } },
              sent := [.status .SUCCESS, .status .SUCCESS] } := by
          show set_status r.state sock sid payload = _
          unfold set_status
          rw [ha]
          dsimp only
          rw [if_neg hp]
        exact simInv_silent B r _ (by rw [hres])
          (by rw [hres]; dsimp only; exact map_set_getD freshUser default _ i _ rfl)
          (by rw [hres]) (by rw [hres]) (by rw [hres]) hinv
  | getMessages sock sid =>
    cases ha : auth_index r.state sid sock with
    | none =>
      have hres : step r.state (.getMessages sock sid) =
          { state := r.state, sent := [.status .INVALID_REQUEST] } := by
        show get_messages r.state sock sid = _
        unfold get_messages
        rw [ha]
      exact simInv_silent B r _ (by rw [hres]) (by rw [hres]) (by rw [hres])
        (by rw [hres]) (by rw [hres]) hinv
    | some i =>
      have hres : (step r.state (.getMessages sock sid)).state = r.state ∧
          (step r.state (.getMessages sock sid)).recs = [] := by
        show (get_messages r.state sock sid).state = r.state ∧
          (get_messages r.state sock sid).recs = []
        unfold get_messages
        rw [ha]
        exact ⟨rfl, rfl⟩
      exact simInv_silent B r _ hres.2 (by rw [hres.1]) (by rw [hres.1])
        (by rw [hres.1]) (by rw [hres.1]) hinv
  | getUsers sock sid now =>
    cases hf : find_user_index_by_id r.state.users sid with
    | none =>
      have hres : step r.state (.getUsers sock sid now) =
          { state := r.state, sent := [.status .INVALID_REQUEST] } := by
        show get_users r.state sock sid now = _
        unfold get_users
        rw [hf]
      exact simInv_silent B r _ (by rw [hres]) (by rw [hres]) (by rw [hres])
        (by rw [hres]) (by rw [hres]) hinv
    | some i =>
      by_cases hlg : (r.state.users.getD i default).logged_in = false
      · have hres : step r.state (.getUsers sock sid now) =
            { state := r.state, sent := [.status .UNAUTHORIZED] } := by
          show get_users r.state sock sid now = _
          unfold get_users
          rw [hf]
          dsimp only
          rw [if_pos hlg]
        exact simInv_silent B r _ (by rw [hres]) (by rw [hres]) (by rw [hres])
          (by rw [hres]) (by rw [hres]) hinv
      · have hres : (step r.state (.getUsers sock sid now)).state =
            { r.state with
              users := r.state.users.set i
                { r.state.users.getD i default with
                  last_heartbeat_time := u32 now } } ∧
            (step r.state (.getUsers sock sid now)).recs = [] := by
          constructor
          · show (get_users r.state sock sid now).state = _
            unfold get_users
            rw [hf]
            dsimp only
            rw [if_neg hlg]
          · show (get_users r.state sock sid now).recs = []
            unfold get_users
            rw [hf]
            dsimp only
            rw [if_neg hlg]
        exact simInv_silent B r _ hres.2
          (by rw [hres.1]; dsimp only; exact map_set_getD freshUser default _ i _ rfl)
          (by rw [hres.1]) (by rw [hres.1]) (by rw [hres.1]) hinv
  | getGroups sock sid =>
    cases hf : find_user_index_by_id r.state.users sid with
    | none =>
      have hres : step r.state (.getGroups sock sid) =
          { state := r.state, sent := [.status .INVALID_REQUEST] } := by
        show get_groups r.state sock sid = _
        unfold get_groups
        rw [hf]
      exact simInv_silent B r _ (by rw [hres]) (by rw [hres]) (by rw [hres])
        (by rw [hres]) (by rw [hres]) hinv
    | some i =>
      have hres : (step r.state (.getGroups sock sid)).state = r.state ∧
          (step r.state (.getGroups sock sid)).recs = [] := by
        constructor
        · show (get_groups r.state sock sid).state = r.state
          unfold get_groups
          rw [hf]
          dsimp only
          split <;> rfl
        · show (get_groups r.state sock sid).recs = []
          unfold get_groups
          rw [hf]
          dsimp only
          split <;> rfl
      exact simInv_silent B r _ hres.2 (by rw [hres.1]) (by rw [hres.1])
        (by rw [hres.1]) (by rw [hres.1]) hinv
  | heartbeat sock now =>
    cases hf : r.state.conns.findIdx? (fun cn => cn.1 == sock) with
    | none =>
      have hres : step r.state (.heartbeat sock now) =
          { state := r.state, sent := [.status .INVALID_REQUEST] } := by
        show Chat.heartbeat r.state sock now = _
        unfold Chat.heartbeat
        rw [hf]
      exact simInv_silent B r _ (by rw [hres]) (by rw [hres]) (by rw [hres])
        (by rw [hres]) (by rw [hres]) hinv
    | some i =>
      have hres : step r.state (.heartbeat sock now) =
          { state := { r.state with
              conns := r.state.conns.set i
                ((r.state.conns.getD i (0, 0)).1, u32 now) },
            sent := [.status .SUCCESS] } := by
        show Chat.heartbeat r.state sock now = _
        unfold Chat.heartbeat
        rw [hf]
      exact simInv_silent B r _ (by rw [hres]) (by rw [hres]) (by rw [hres])
        (by rw [hres]) (by rw [hres]) hinv
  | goodbye sock =>
    have h2 : (step r.state (.goodbye sock)).recs = [] := by
      show (Chat.goodbye r.state sock).recs = []
      unfold Chat.goodbye
      cases r.state.conns.findIdx? (fun cn => cn.1 == sock) <;> rfl
    exact simInv_silent B r _ h2
      (by show (Chat.goodbye r.state sock).state.users.map freshUser = _
          rw [goodbye_users])
      (goodbye_fields r.state sock).1
      (goodbye_fields r.state sock).2.1
      (goodbye_fields r.state sock).2.2 hinv
  | prune now =>
    exact simInv_silent B r _ rfl
      (prune_loop_fields now (r.state.conns.length + 1) r.state 0).2.2.2
      (prune_loop_fields now (r.state.conns.length + 1) r.state 0).1
      (prune_loop_fields now (r.state.conns.length + 1) r.state 0).2.1
      (prune_loop_fields now (r.state.conns.length + 1) r.state 0).2.2.1 hinv
  | registerGroup sock gname members =>
    have hwfc2 : wfStr gname ∧ (∀ m ∈ members, noQuote m ∧ m.length ≤ 240) ∧
        (encBodyFull (.newGroup gname members)).length ≤ 1023 := hwfc
    obtain ⟨hgwf, hmwf, hlen1023⟩ := hwfc2
    cases hgf : find_group_index_by_name r.state.groups gname with
    | some j =>
      have hres : step r.state (.registerGroup sock gname members) =
          { state := r.state, sent := [.status .INVALID_REQUEST] } := by
        show register_group r.state sock gname members = _
        unfold register_group
        rw [hgf]
      exact simInv_silent B r _ (by rw [hres]) (by rw [hres]) (by rw [hres])
        (by rw [hres]) (by rw [hres]) hinv
    | none =>
      by_cases hfail :
          members.any (fun m => (find_user_index_by_name r.state.users m).isNone) = true
      · have hres : step r.state (.registerGroup sock gname members) =
            { state := r.state, sent := [.status .SUCCESS, .status .INVALID_REQUEST] } := by
          show register_group r.state sock gname members = _
          unfold register_group
          rw [hgf]
          dsimp only
          rw [if_pos hfail]
        exact simInv_silent B r _ (by rw [hres]) (by rw [hres]) (by rw [hres])
          (by rw [hres]) (by rw [hres]) hinv
      · obtain ⟨hU, hG, hM, hN, hW, hUN, hGN, hMI⟩ := hinv
        have hall : ∀ m ∈ members,
            (find_user_index_by_name r.state.users m).isSome = true := by
          intro m hm
          cases hmm : find_user_index_by_name r.state.users m with
          | none =>
            exfalso
            apply hfail
            rw [List.any_eq_true]
            exact ⟨m, hm, by rw [hmm]; rfl⟩
          | some v => rfl
        have hfilter :
            members.filter (fun m => (find_user_index_by_name r.state.users m).isSome) =
              members := List.filter_eq_self.mpr hall
        have hres : step r.state (.registerGroup sock gname members) =
            { state := { r.state with groups :=
                r.state.groups ++ [{ name := gname, users := members }] },
              recs := [.newGroup gname members],
              sent := [.status .SUCCESS, .status .SUCCESS] } := by
          show register_group r.state sock gname members = _
          unfold register_group
          rw [hgf]
          dsimp only
          rw [if_neg hfail, hfilter]
        have hst : (stepRun r (.registerGroup sock gname members)).state =
            { r.state with groups :=
              r.state.groups ++ [{ name := gname, users := members }] } := by
          show (step r.state (.registerGroup sock gname members)).state = _
          rw [hres]
        have hrecs : (stepRun r (.registerGroup sock gname members)).recs =
            r.recs ++ [.newGroup gname members] := by
          show r.recs ++ (step r.state (.registerGroup sock gname members)).recs = _
          rw [hres]
        have hrep : replayOf (stepRun r (.registerGroup sock gname members)) =
            { replayOf r with groups :=
              (replayOf r).groups ++ [{ name := gname, users := members }] } := by
          rw [replayOf_stepRun, hres]
          rfl
        refine ⟨?_, ?_, ?_, ?_, ?_, ?_, ?_, ?_⟩
        · rw [hrep, hst]
          dsimp only
          exact hU
        · rw [hrep, hst]
          dsimp only
          rw [hG]
        · rw [hrep, hst]
          dsimp only
          exact hM
        · rw [hrep, hst]
          dsimp only
          exact hN
        · rw [hrecs]
          intro rec hrec
          rcases List.mem_append.mp hrec with h1 | h2
          · exact hW rec h1
          · rw [List.mem_singleton] at h2
            subst h2
            exact ⟨hgwf, hmwf, hlen1023⟩
        · rw [hst]
          dsimp only
          exact hUN
        · rw [hst]
          dsimp only
          intro g hg2
          rcases List.mem_append.mp hg2 with h1 | h2
          · exact hGN g h1
          · rw [List.mem_singleton] at h2
            subst h2
            refine ⟨hgwf, fun m hm2 => ?_⟩
            have := hall m hm2
            cases hmm : find_user_index_by_name r.state.users m with
            | none => rw [hmm] at this; exact absurd this (by simp)
            | some v => exact find_user_some_mem _ _ _ hmm
        · rw [hst]
          dsimp only
          exact hMI
  | deleteMessage sock sid mid =>
    cases ha : auth_index r.state sid sock with
    | none =>
      have hres : step r.state (.deleteMessage sock sid mid) =
          { state := r.state, sent := [.status .INVALID_REQUEST] } := by
        show delete_message r.state sock sid mid = _
        unfold delete_message
        rw [ha]
      exact simInv_silent B r _ (by rw [hres]) (by rw [hres]) (by rw [hres])
        (by rw [hres]) (by rw [hres]) hinv
    | some i =>
      cases hmf : find_message_index_by_id r.state.messages mid with
      | none =>
        have hres : step r.state (.deleteMessage sock sid mid) =
            { state := r.state, sent := [.status .SUCCESS, .status .INVALID_REQUEST] } := by
          show delete_message r.state sock sid mid = _
          unfold delete_message
          rw [ha]
          dsimp only
          rw [hmf]
        exact simInv_silent B r _ (by rw [hres]) (by rw [hres]) (by rw [hres])
          (by rw [hres]) (by rw [hres]) hinv
      | some mi =>
        by_cases hrcp : (r.state.messages.getD mi default).recipient =
            (r.state.users.getD i default).name
        · obtain ⟨hU, hG, hM, hN, hW, hUN, hGN, hMI⟩ := hinv
          have hmilt : mi < r.state.messages.length := findIdx?_lt hmf
          have hmid_eq : (r.state.messages.getD mi default).id = mid := by
            have := findIdx?_getD default hmf
            simpa using this
          obtain ⟨hm0, hm1⟩ := hMI _ (getD_mem r.state.messages mi hmilt)
          have hmid0 : 0 ≤ mid := hmid_eq ▸ hm0
          have hmid1 : mid ≤ (r.state.next_id : Int) := hmid_eq ▸ hm1
          have hres : step r.state (.deleteMessage sock sid mid) =
              { state := { r.state with messages := r.state.messages.eraseIdx mi },
                recs := [.deleteMessage (u32_of_int mid)],
                sent := [.status .SUCCESS, .status .SUCCESS] } := by
            show delete_message r.state sock sid mid = _
            unfold delete_message
            rw [ha]
            dsimp only
            rw [hmf]
            dsimp only
            rw [if_pos hrcp]
          have hst : (stepRun r (.deleteMessage sock sid mid)).state =
              { r.state with messages := r.state.messages.eraseIdx mi } := by
            show (step r.state (.deleteMessage sock sid mid)).state = _
            rw [hres]
          have hrecs : (stepRun r (.deleteMessage sock sid mid)).recs =
              r.recs ++ [.deleteMessage (u32_of_int mid)] := by
            show r.recs ++ (step r.state (.deleteMessage sock sid mid)).recs = _
            rw [hres]
          have hb2 : r.state.next_id ≤ B := by
            rw [hst] at hbound
            exact hbound
          have hu32 : ((u32_of_int mid : Nat) : Int) = mid := by
            unfold u32_of_int
            have hlt : mid < (2 ^ 32 : Int) := by
              have : (r.state.next_id : Int) < (2 ^ 32 : Int) := by
                have h3 : r.state.next_id < 2 ^ 32 := by omega
                exact_mod_cast h3
              omega
            rw [Int.emod_eq_of_lt hmid0 hlt, Int.toNat_of_nonneg hmid0]
          have hval : u32_of_int mid ≤ B := by
            have h4 : ((u32_of_int mid : Nat) : Int) ≤ (B : Int) := by
              rw [hu32]
              exact le_trans hmid1 (by exact_mod_cast hb2)
            exact_mod_cast h4
          have hrep : replayOf (stepRun r (.deleteMessage sock sid mid)) =
              { replayOf r with messages := (replayOf r).messages.eraseIdx mi } := by
            rw [replayOf_stepRun, hres]
            show applyRec (replayOf r) (.deleteMessage (u32_of_int mid)) = _
            rw [applyRec_deleteMessage (replayOf r) (u32_of_int mid) mi (by rw [hu32, hM]; exact hmf)]
          refine ⟨?_, ?_, ?_, ?_, ?_, ?_, ?_, ?_⟩
          · rw [hrep, hst]
            dsimp only
            exact hU
          · rw [hrep, hst]
            dsimp only
            exact hG
          · rw [hrep, hst]
            dsimp only
            rw [hM]
          · rw [hrep, hst]
            dsimp only
            exact hN
          · rw [hrecs]
            intro rec hrec
            rcases List.mem_append.mp hrec with h1 | h2
            · exact hW rec h1
            · rw [List.mem_singleton] at h2
              subst h2
              exact hval
          · rw [hst]
            dsimp only
            exact hUN
          · rw [hst]
            dsimp only
            exact hGN
          · rw [hst]
            dsimp only
            intro m hm2
            exact hMI m (List.mem_of_mem_eraseIdx hm2)
        · have hres : step r.state (.deleteMessage sock sid mid) =
              { state := r.state, sent := [.status .SUCCESS, .status .UNAUTHORIZED] } := by
            show delete_message r.state sock sid mid = _
            unfold delete_message
            rw [ha]
            dsimp only
            rw [hmf]
            dsimp only
            rw [if_neg hrcp]
          exact simInv_silent B r _ (by rw [hres]) (by rw [hres]) (by rw [hres])
            (by rw [hres]) (by rw [hres]) hinv
  | sendMessage sock sid rtype rname content =>
    have hwfc2 : noQuote content ∧ rtype ≤ 1 := hwfc
    obtain ⟨hwq, hwt⟩ := hwfc2
    cases ha : auth_index r.state sid sock with
    | none =>
      have hres : step r.state (.sendMessage sock sid rtype rname content) =
          { state := r.state, sent := [.status .INVALID_REQUEST] } := by
        show send_message r.state sock sid rtype rname content = _
        unfold send_message
        rw [ha]
      exact simInv_silent B r _ (by rw [hres]) (by rw [hres]) (by rw [hres])
        (by rw [hres]) (by rw [hres]) hinv
    | some i =>
      have hilt : i < r.state.users.length := auth_index_lt ha
      have hsmem : (r.state.users.getD i default).name ∈
          r.state.users.map (fun u => u.name) := getD_name_mem _ i hilt
      by_cases hrt : rtype = RECIPIENT_TYPE_USER
      · cases hrf : find_user_index_by_name r.state.users rname with
        | none =>
          have hres : step r.state (.sendMessage sock sid rtype rname content) =
              { state := r.state, sent := [.status .SUCCESS, .status .INVALID_REQUEST] } := by
            show send_message r.state sock sid rtype rname content = _
            unfold send_message
            rw [ha]
            dsimp only
            rw [if_pos hrt, hrf]
          exact simInv_silent B r _ (by rw [hres]) (by rw [hres]) (by rw [hres])
            (by rw [hres]) (by rw [hres]) hinv
        | some ri =>
          by_cases hcl : content.length > CHAT_MAX_MESSAGE_LENGTH
          · have hres : step r.state (.sendMessage sock sid rtype rname content) =
                { state := r.state, sent := [.status .SUCCESS, .status .INVALID_REQUEST] } := by
              show send_message r.state sock sid rtype rname content = _
              unfold send_message
              rw [ha]
              dsimp only
              rw [if_pos hrt, hrf]
              dsimp only
              rw [if_pos hcl]
            exact simInv_silent B r _ (by rw [hres]) (by rw [hres]) (by rw [hres])
              (by rw [hres]) (by rw [hres]) hinv
          · obtain ⟨hU, hG, hM, hN, hW, hUN, hGN, hMI⟩ := hinv
            have hnames : (replayOf r).users.map (fun u => u.name) =
                r.state.users.map (fun u => u.name) := by
              rw [hU, map_name_map_freshUser]
            have hlen : (replayOf r).users.length = r.state.users.length := by
              rw [hU, List.length_map]
            have hrilt : ri < r.state.users.length := findIdx?_lt hrf
            have hrname : (r.state.users.getD ri default).name = rname :=
              name_eq_of_find_user _ _ _ hrf
            have hsf := find_user_mem_ne_none _ _ hsmem
            cases hsf2 : find_user_index_by_name r.state.users
                ((r.state.users.getD i default).name) with
            | none => exact absurd hsf2 hsf
            | some si =>
            have hsname : (r.state.users.getD si default).name =
                (r.state.users.getD i default).name := name_eq_of_find_user _ _ _ hsf2
            have hsilt : si < r.state.users.length := findIdx?_lt hsf2
            have hcong := find_user_index_by_name_congr (replayOf r).users
              r.state.users hnames
            have hres : step r.state (.sendMessage sock sid rtype rname content) =
                { state := { r.state with
                    next_id := r.state.next_id + 1,
                    messages := r.state.messages ++
                      [{ content := content,
                         recipient := (r.state.users.getD ri default).name,
                         sender := (r.state.users.getD i default).name,
                         id := ((r.state.next_id + 1 : Nat) : Int) }] },
                  recs := [.updateId (r.state.next_id + 1),
                    .newMessage (r.state.users.getD i default).name rtype rname content],
                  sent := [.status .SUCCESS, .status .SUCCESS] } := by
              show send_message r.state sock sid rtype rname content = _
              unfold send_message
              rw [ha]
              dsimp only
              rw [if_pos hrt, hrf]
              dsimp only
              rw [if_neg hcl]
              dsimp only [get_next_id]
            have hst : (stepRun r (.sendMessage sock sid rtype rname content)).state =
                { r.state with
                  next_id := r.state.next_id + 1,
                  messages := r.state.messages ++
                    [{ content := content,
                       recipient := (r.state.users.getD ri default).name,
                       sender := (r.state.users.getD i default).name,
                       id := ((r.state.next_id + 1 : Nat) : Int) }] } := by
              show (step r.state (.sendMessage sock sid rtype rname content)).state = _
              rw [hres]
            have hrecs : (stepRun r (.sendMessage sock sid rtype rname content)).recs =
                r.recs ++ [.updateId (r.state.next_id + 1),
                  .newMessage (r.state.users.getD i default).name rtype rname content] := by
              show r.recs ++ (step r.state (.sendMessage sock sid rtype rname content)).recs = _
              rw [hres]
            have hb2 : r.state.next_id + 1 ≤ B := by
              rw [hst] at hbound
              exact hbound
            have hrep : replayOf (stepRun r (.sendMessage sock sid rtype rname content)) =
                { replayOf r with
                  next_id := r.state.next_id + 1,
                  messages := (replayOf r).messages ++
                    [{ content := content,
                       recipient := (r.state.users.getD ri default).name,
                       sender := (r.state.users.getD i default).name,
                       id := ((r.state.next_id + 1 : Nat) : Int) }] } := by
              rw [replayOf_stepRun, hres]
              show applyRec (applyRec (replayOf r) (.updateId (r.state.next_id + 1)))
                  (.newMessage (r.state.users.getD i default).name rtype rname content) = _
              have h1 : applyRec (replayOf r) (.updateId (r.state.next_id + 1)) =
                  { replayOf r with next_id := r.state.next_id + 1 } := rfl
              rw [h1]
              rw [applyRec_newMessage_user _ _ _ _ rtype hrt si ri
                (by show find_user_index_by_name (replayOf r).users _ = _
                    rw [hcong]
                    exact hsf2)
                (by show find_user_index_by_name (replayOf r).users _ = _
                    rw [hcong]
                    exact hrf)]
              dsimp only
              rw [users_getD_name_eq (replayOf r).users r.state.users hnames ri (by omega),
                users_getD_name_eq (replayOf r).users r.state.users hnames si (by omega),
                hsname]
            refine ⟨?_, ?_, ?_, ?_, ?_, ?_, ?_, ?_⟩
            · rw [hrep, hst]
              dsimp only
              exact hU
            · rw [hrep, hst]
              dsimp only
              exact hG
            · rw [hrep, hst]
              dsimp only
              rw [hM]
            · rw [hrep, hst]
            · rw [hrecs]
              intro rec hrec
              rcases List.mem_append.mp hrec with h1 | h2
              · exact hW rec h1
              · rcases List.mem_cons.mp h2 with h3 | h4
                · subst h3
                  exact hb2
                · rw [List.mem_singleton] at h4
                  subst h4
                  refine ⟨hUN _ hsmem, ?_, hwq,
                    by unfold CHAT_MAX_MESSAGE_LENGTH at hcl; omega, hwt⟩
                  rw [← hrname]
                  exact hUN _ (getD_name_mem _ ri hrilt)
            · rw [hst]
              dsimp only
              exact hUN
            · rw [hst]
              dsimp only
              intro g hg2
              obtain ⟨w1, w2⟩ := hGN g hg2
              exact ⟨w1, w2⟩
            · rw [hst]
              dsimp only
              intro m hm2
              rcases List.mem_append.mp hm2 with h1 | h2
              · obtain ⟨b1, b2⟩ := hMI m h1
                refine ⟨b1, le_trans b2 ?_⟩
                push_cast
                omega
              · rw [List.mem_singleton] at h2
                subst h2
                refine ⟨by positivity, le_refl _⟩
      · have hrt1 : rtype = RECIPIENT_TYPE_GROUP := by
          unfold RECIPIENT_TYPE_USER at hrt
          unfold RECIPIENT_TYPE_GROUP
          omega
        cases hgf : find_group_index_by_name r.state.groups rname with
        | none =>
          have hres : step r.state (.sendMessage sock sid rtype rname content) =
              { state := r.state, sent := [.status .SUCCESS, .status .INVALID_REQUEST] } := by
            show send_message r.state sock sid rtype rname content = _
            unfold send_message
            rw [ha]
            dsimp only
            rw [if_neg hrt, hgf]
          exact simInv_silent B r _ (by rw [hres]) (by rw [hres]) (by rw [hres])
            (by rw [hres]) (by rw [hres]) hinv
        | some gi =>
          by_cases hcl : content.length > CHAT_MAX_MESSAGE_LENGTH
          · have hres : step r.state (.sendMessage sock sid rtype rname content) =
                { state := r.state, sent := [.status .SUCCESS, .status .INVALID_REQUEST] } := by
              show send_message r.state sock sid rtype rname content = _
              unfold send_message
              rw [ha]
              dsimp only
              rw [if_neg hrt, hgf]
              dsimp only
              rw [if_pos hcl]
            exact simInv_silent B r _ (by rw [hres]) (by rw [hres]) (by rw [hres])
              (by rw [hres]) (by rw [hres]) hinv
          · obtain ⟨hU, hG, hM, hN, hW, hUN, hGN, hMI⟩ := hinv
            have hnames : (replayOf r).users.map (fun u => u.name) =
                r.state.users.map (fun u => u.name) := by
              rw [hU, map_name_map_freshUser]
            have hlen : (replayOf r).users.length = r.state.users.length := by
              rw [hU, List.length_map]
            have hgilt : gi < r.state.groups.length := findIdx?_lt hgf
            have hgname : (r.state.groups.getD gi default).name = rname :=
              name_eq_of_find_group _ _ _ hgf
            obtain ⟨hgwf2, hgmembers⟩ := hGN _ (getD_mem r.state.groups gi hgilt)
            have hsf := find_user_mem_ne_none _ _ hsmem
            cases hsf2 : find_user_index_by_name r.state.users
                ((r.state.users.getD i default).name) with
            | none => exact absurd hsf2 hsf
            | some si =>
            have hsname : (r.state.users.getD si default).name =
                (r.state.users.getD i default).name := name_eq_of_find_user _ _ _ hsf2
            have hsilt : si < r.state.users.length := findIdx?_lt hsf2
            have hcong := find_user_index_by_name_congr (replayOf r).users
              r.state.users hnames
            have hres : step r.state (.sendMessage sock sid rtype rname content) =
                { state := { r.state with
                    next_id := r.state.next_id + 1 +
                      (r.state.groups.getD gi default).users.length,
                    messages := r.state.messages ++
                      fanoutMsgs content (r.state.users.getD i default).name
                        r.state.users (r.state.groups.getD gi default).users
                        (r.state.next_id + 1) },
                  recs := [.updateId (r.state.next_id + 1),
                      .newMessage (r.state.users.getD i default).name rtype rname content] ++
                    updRecs (r.state.next_id + 1)
                      (r.state.groups.getD gi default).users.length,
                  sent := [.status .SUCCESS, .status .SUCCESS] } := by
              show send_message r.state sock sid rtype rname content = _
              unfold send_message
              rw [ha]
              dsimp only
              rw [if_neg hrt, hgf]
              dsimp only
              rw [if_neg hcl]
              dsimp only [get_next_id]
              rw [group_fanout_chars content ((r.state.users.getD i default).name)
                ((r.state.groups.getD gi default).users)
                { r.state with next_id := r.state.next_id + 1 }
                (r.state.next_id + 1) rfl]
            have hst : (stepRun r (.sendMessage sock sid rtype rname content)).state =
                { r.state with
                  next_id := r.state.next_id + 1 +
                    (r.state.groups.getD gi default).users.length,
                  messages := r.state.messages ++
                    fanoutMsgs content (r.state.users.getD i default).name
                      r.state.users (r.state.groups.getD gi default).users
                      (r.state.next_id + 1) } := by
              show (step r.state (.sendMessage sock sid rtype rname content)).state = _
              rw [hres]
            have hrecs : (stepRun r (.sendMessage sock sid rtype rname content)).recs =
                r.recs ++ ([.updateId (r.state.next_id + 1),
                    .newMessage (r.state.users.getD i default).name rtype rname content] ++
                  updRecs (r.state.next_id + 1)
                    (r.state.groups.getD gi default).users.length) := by
              show r.recs ++ (step r.state (.sendMessage sock sid rtype rname content)).recs = _
              rw [hres]
            have hb2 : r.state.next_id + 1 +
                (r.state.groups.getD gi default).users.length ≤ B := by
              rw [hst] at hbound
              exact hbound
            have hrep : replayOf (stepRun r (.sendMessage sock sid rtype rname content)) =
                { replayOf r with
                  next_id := r.state.next_id + 1 +
                    (r.state.groups.getD gi default).users.length,
                  messages := (replayOf r).messages ++
                    fanoutMsgs content (r.state.users.getD i default).name
                      r.state.users (r.state.groups.getD gi default).users
                      (r.state.next_id + 1) } := by
              rw [replayOf_stepRun, hres]
              rw [List.foldl_append]
              have h1 : List.foldl applyRec (replayOf r)
                  [.updateId (r.state.next_id + 1),
                   .newMessage (r.state.users.getD i default).name rtype rname content] =
                  applyRec { replayOf r with next_id := r.state.next_id + 1 }
                    (.newMessage (r.state.users.getD i default).name rtype rname content) := rfl
              rw [h1]
              rw [applyRec_newMessage_group _ _ _ _ rtype hrt hrt1 si gi
                (by show find_user_index_by_name (replayOf r).users _ = _
                    rw [hcong]
                    exact hsf2)
                (by show find_group_index_by_name (replayOf r).groups _ = _
                    rw [hG]
                    exact hgf)]
              dsimp only
              rw [users_getD_name_eq (replayOf r).users r.state.users hnames si (by omega),
                hsname, hG]
              rw [replay_fanout_chars content ((r.state.users.getD i default).name)
                ((r.state.groups.getD gi default).users)
                { next_id := r.state.next_id + 1, users := (replayOf r).users,
                  groups := r.state.groups, messages := (replayOf r).messages,
                  conns := (replayOf r).conns }
                (r.state.next_id + 1) rfl
                (by intro m hm
                    show find_user_index_by_name (replayOf r).users m ≠ none
                    rw [hcong]
                    exact find_user_mem_ne_none _ _ (hgmembers m hm))]
              dsimp only
              rw [fanoutMsgs_congr content ((r.state.users.getD i default).name)
                (replayOf r).users r.state.users hnames
                ((r.state.groups.getD gi default).users) (r.state.next_id + 1)]
              rw [foldl_updRecs _ _ _ rfl]
            refine ⟨?_, ?_, ?_, ?_, ?_, ?_, ?_, ?_⟩
            · rw [hrep, hst]
              dsimp only
              exact hU
            · rw [hrep, hst]
              dsimp only
              exact hG
            · rw [hrep, hst]
              dsimp only
              rw [hM]
            · rw [hrep, hst]
            · rw [hrecs]
              intro rec hrec
              rcases List.mem_append.mp hrec with h1 | h2
              · exact hW rec h1
              · rcases List.mem_append.mp h2 with h3 | h4
                · rcases List.mem_cons.mp h3 with h5 | h6
                  · subst h5
                    show r.state.next_id + 1 ≤ B
                    omega
                  · rw [List.mem_singleton] at h6
                    subst h6
                    refine ⟨hUN _ hsmem, ?_, hwq,
                      by unfold CHAT_MAX_MESSAGE_LENGTH at hcl; omega, hwt⟩
                    rw [← hgname]
                    exact hgwf2
                · obtain ⟨k, hk1, hk2, hk3⟩ := mem_updRecs _ _ _ h4
                  rw [hk3]
                  show r.state.next_id + 1 + k ≤ B
                  omega
            · rw [hst]
              dsimp only
              exact hUN
            · rw [hst]
              dsimp only
              intro g hg2
              obtain ⟨w1, w2⟩ := hGN g hg2
              exact ⟨w1, w2⟩
            · rw [hst]
              dsimp only
              intro m hm2
              rcases List.mem_append.mp hm2 with h1 | h2
              · obtain ⟨b1, b2⟩ := hMI m h1
                refine ⟨b1, le_trans b2 ?_⟩
                push_cast
                omega
              · obtain ⟨b1, b2⟩ := fanoutMsgs_id_bound content
                  ((r.state.users.getD i default).name) r.state.users
                  ((r.state.groups.getD gi default).users) (r.state.next_id + 1) m h2
                refine ⟨b1, le_trans b2 ?_⟩
                push_cast
                omega

/-- The empty run satisfies the simulation invariant. -/
theorem simInv_nil (B : Nat) : simInv B (runCmds []) := by
  refine ⟨rfl, rfl, rfl, rfl, ?_, ?_, ?_, ?_⟩
  · intro x hx
    simp [runCmds] at hx
  · intro x hx
    simp [runCmds, initState] at hx
  · intro x hx
    simp [runCmds, initState] at hx
  · intro x hx
    simp [runCmds, initState] at hx

/-- Every run of wellformed commands whose final counter is bounded by
`B < 2^31` satisfies the simulation invariant. -/
theorem sim_run (B : Nat) (hB : B < 2 ^ 31) :
    ∀ cmds : List Cmd, (∀ c ∈ cmds, wfCmd c) →
      (runCmds cmds).state.next_id ≤ B → simInv B (runCmds cmds) := by
  intro cmds
  induction cmds using List.reverseRecOn with
  | nil => intro _ _; exact simInv_nil B
  | append_singleton cs c ih =>
    intro hwf hbound
    rw [runCmds_snoc] at hbound ⊢
    have hmono : (runCmds cs).state.next_id ≤ (stepRun (runCmds cs) c).state.next_id :=
      step_next_id_mono (runCmds cs).state c
    exact sim_step B hB (runCmds cs) c
      (ih (fun x hx => hwf x (List.mem_append_left _ hx)) (le_trans hmono hbound))
      (hwf c (by simp)) hbound

/-- Recovery from the journal text a run committed equals folding its
abstract records over a fresh store. -/
theorem replayJournal_encJournal (B : Nat) (hB : B < 2 ^ 31) (recs : List JRec)
    (hwf : ∀ rec ∈ recs, wfRecB B rec) :
    replayJournal (encJournal recs) = recs.foldl applyRec initState := by
  unfold replayJournal
  exact replay_encJournal recs B hB hwf initState (encJournal recs) rfl

/-- Each step either keeps the user-name list or appends one name that
did not resolve before. -/
theorem step_names (st : SState) (c : Cmd) :
    ((step st c).state.users).map (fun u => u.name) =
      st.users.map (fun u => u.name) ∨
    (∃ nm, find_user_index_by_name st.users nm = none ∧
      ((step st c).state.users).map (fun u => u.name) =
        st.users.map (fun u => u.name) ++ [nm]) := by
  cases c with
  | accept sock now => left; rfl
  | register sock name =>
    cases hf : find_user_index_by_name st.users name with
    | some j =>
      left
      show ((register_user st sock name).state.users).map _ = _
      unfold register_user
      rw [hf]
    | none =>
      right
      refine ⟨name, hf, ?_⟩
      show ((register_user st sock name).state.users).map (fun u => u.name) =
        st.users.map (fun u => u.name) ++ [name]
      unfold register_user
      rw [hf]
      dsimp only
      rw [List.map_append]
      rfl
  | login sock name now =>
    left
    show ((login st sock name now).state.users).map _ = _
    unfold login
    cases hf : find_user_index_by_name st.users name with
    | none => rfl
    | some i =>
      dsimp only
      split
      · rfl
      · dsimp only [get_next_id]
        exact map_name_set _ _ _ rfl
  | logout sock sid =>
    left
    show ((logout st sock sid).state.users).map _ = _
    unfold logout
    cases ha : auth_index st sid sock with
    | none => rfl
    | some i =>
      dsimp only
      exact map_name_set _ _ _ rfl
  | setStatus sock sid payload =>
    left
    show ((set_status st sock sid payload).state.users).map _ = _
    unfold set_status
    cases ha : auth_index st sid sock with
    | none => rfl
    | some i =>
      dsimp only
      split
      · rfl
      · exact map_name_set _ _ _ rfl
  | sendMessage sock sid rtype rname content =>
    left
    show ((send_message st sock sid rtype rname content).state.users).map _ = _
    unfold send_message
    cases ha : auth_index st sid sock with
    | none => rfl
    | some i =>
      dsimp only
      split
      · cases hr : find_user_index_by_name st.users rname with
        | none => rfl
        | some ri =>
          dsimp only
          split
          · rfl
          · rfl
      · cases hg : find_group_index_by_name st.groups rname with
        | none => rfl
        | some gi =>
          dsimp only
          split
          · rfl
          · dsimp only [get_next_id]
            rw [group_fanout_chars content ((st.users.getD i default).name)
              ((st.groups.getD gi default).users)
              { st with next_id := st.next_id + 1 } (st.next_id + 1) rfl]
  | deleteMessage sock sid mid =>
    left
    show ((delete_message st sock sid mid).state.users).map _ = _
    unfold delete_message
    cases ha : auth_index st sid sock with
    | none => rfl
    | some i =>
      dsimp only
      cases hm : find_message_index_by_id st.messages mid with
      | none => rfl
      | some mi =>
        dsimp only
        split
        · rfl
        · rfl
  | getMessages sock sid =>
    left
    show ((get_messages st sock sid).state.users).map _ = _
    unfold get_messages
    cases ha : auth_index st sid sock with
    | none => rfl
    | some i => rfl
  | getUsers sock sid now =>
    left
    show ((get_users st sock sid now).state.users).map _ = _
    unfold get_users
    cases hf : find_user_index_by_id st.users sid with
    | none => rfl
    | some i =>
      dsimp only
      split
      · rfl
      · exact map_name_set _ _ _ rfl
  | getGroups sock sid =>
    left
    show ((get_groups st sock sid).state.users).map _ = _
    unfold get_groups
    cases hf : find_user_index_by_id st.users sid with
    | none => rfl
    | some i =>
      dsimp only
      split
      · rfl
      · rfl
  | registerGroup sock gname members =>
    left
    show ((register_group st sock gname members).state.users).map _ = _
    unfold register_group
    cases hf : find_group_index_by_name st.groups gname with
    | some j => rfl
    | none =>
      dsimp only
      split
      · rfl
      · rfl
  | heartbeat sock now =>
    left
    show ((Chat.heartbeat st sock now).state.users).map _ = _
    unfold Chat.heartbeat
    cases hf : st.conns.findIdx? (fun cn => cn.1 == sock) with
    | none => rfl
    | some i => rfl
  | goodbye sock =>
    left
    show ((Chat.goodbye st sock).state.users).map _ = _
    rw [goodbye_users]
  | prune now =>
    left
    show ((prune_dead_connections now st).users).map _ = _
    unfold prune_dead_connections
    exact map_name_of_map_freshUser
      (prune_loop_fields now (st.conns.length + 1) st 0).2.2.2

/-- A step keeps the live user-name list duplicate-free. -/
theorem step_preserves_names_nodup (st : SState) (c : Cmd)
    (h : (st.users.map (fun u => u.name)).Nodup) :
    (((step st c).state.users).map (fun u => u.name)).Nodup := by
  rcases step_names st c with h1 | ⟨nm, hnone, h2⟩
  · rw [h1]; exact h
  · rw [h2, List.nodup_append]
    refine ⟨h, List.nodup_singleton nm, ?_⟩
    intro x hx hx2
    rw [List.mem_singleton] at hx2
    subst hx2
    exact find_user_none_not_mem _ _ hnone hx

/-- The live user directory never holds two users with the same name. -/
theorem runCmds_names_nodup : ∀ cmds : List Cmd,
    ((runCmds cmds).state.users.map (fun u => u.name)).Nodup := by
  intro cmds
  induction cmds using List.reverseRecOn with
  | nil => simp [runCmds, initState]
  | append_singleton cs c ih =>
    rw [runCmds_snoc]
    exact step_preserves_names_nodup (runCmds cs).state c ih

/-! Claim C1. -/

/-- C1 (amended): replay equivalence holds for command sequences whose
wire inputs survive the journal's unescaped quoting (no `"` inside
journaled strings, bounded lengths, a recipient type the recovery switch
recognises) and whose final ID counter stays below 2^31: recovery from
the journal the run produced rebuilds the same user list up to session
fields (same names in the same order, session fields at their
initialisers), the same groups, the same pending messages, and the same
ID counter.  For arbitrary sequences the claim fails
(`C1_counterexample`: an embedded quote corrupts the journal). -/
theorem C1_replay_equivalence_wf (cmds : List Cmd) (B : Nat) (hB : B < 2 ^ 31)
    (hwf : ∀ c ∈ cmds, wfCmd c) (hbound : (runCmds cmds).state.next_id ≤ B) :
    (replayJournal (encJournal (runCmds cmds).recs)).users =
        (runCmds cmds).state.users.map freshUser ∧
    (replayJournal (encJournal (runCmds cmds).recs)).groups =
        (runCmds cmds).state.groups ∧
    (replayJournal (encJournal (runCmds cmds).recs)).messages =
        (runCmds cmds).state.messages ∧
    (replayJournal (encJournal (runCmds cmds).recs)).next_id =
        (runCmds cmds).state.next_id := by
  obtain ⟨hU, hG, hM, hN, hW, _, _, _⟩ := sim_run B hB cmds hwf hbound
  have hrj : replayJournal (encJournal (runCmds cmds).recs) = replayOf (runCmds cmds) :=
    replayJournal_encJournal B hB _ hW
  rw [hrj]
  exact ⟨hU, hG, hM, hN⟩

/-- C1 counterexample: after `REGISTER a"b`, the live store has a user
named `a"b`, but recovery from the journal the run wrote does not — the
unescaped quote makes `read_quoted_string` stop early, so the replayed
store has a user named `a` instead and the user sets differ. -/
theorem C1_counterexample :
    "a\"b" ∈ (runCmds c1cmds).state.users.map (fun u => u.name) ∧
    "a\"b" ∉ (replayJournal (encJournal (runCmds c1cmds).recs)).users.map
      (fun u => u.name) := by
  decide

theorem C1_witness :
    (2 < 2 ^ 31 ∧ (∀ c ∈ c1wit, wfCmd c) ∧ (runCmds c1wit).state.next_id ≤ 2) ∧
    ((replayJournal (encJournal (runCmds c1wit).recs)).users =
        (runCmds c1wit).state.users.map freshUser ∧
    (replayJournal (encJournal (runCmds c1wit).recs)).groups =
        (runCmds c1wit).state.groups ∧
    (replayJournal (encJournal (runCmds c1wit).recs)).messages =
        (runCmds c1wit).state.messages ∧
    (replayJournal (encJournal (runCmds c1wit).recs)).next_id =
        (runCmds c1wit).state.next_id) :=
  ⟨⟨by decide, by decide, by decide⟩,
    C1_replay_equivalence_wf c1wit 2 (by decide) (by decide) (by decide)⟩

/-! Claim C8. -/

/-- C8 (amended): within a process the ID counter is monotone — each
`get_next_id` call returns and installs `old + 1` and journals exactly
that value, and no step decreases the counter.  Across a restart the
guarantee only holds for wellformed runs (journal-safe wire inputs,
counter below 2^31): then the recovered counter equals the live one and
is at least every journaled `UPDATE_ID` value, i.e. every allocated id.
For arbitrary runs it fails (`C8_counterexample`: a corrupted journal
aborts replay early and the recovered counter falls below an allocated
id). -/
theorem C8_counter_monotone (cmds : List Cmd)
    (hwf : ∀ c ∈ cmds, wfCmd c)
    (hsmall : (runCmds cmds).state.next_id < 2 ^ 31) :
    (∀ st : SState, (get_next_id st).1 = st.next_id + 1 ∧
      (get_next_id st).2.1.next_id = st.next_id + 1 ∧
      (get_next_id st).2.2 = .updateId (st.next_id + 1)) ∧
    (∀ (r : Run) (c : Cmd), r.state.next_id ≤ (stepRun r c).state.next_id) ∧
    (replayJournal (encJournal (runCmds cmds).recs)).next_id =
      (runCmds cmds).state.next_id ∧
    (∀ n, JRec.updateId n ∈ (runCmds cmds).recs →
      n ≤ (replayJournal (encJournal (runCmds cmds).recs)).next_id) := by
  obtain ⟨_, _, _, hN, hW, _, _, _⟩ :=
    sim_run ((runCmds cmds).state.next_id) hsmall cmds hwf (le_refl _)
  have hrj : replayJournal (encJournal (runCmds cmds).recs) = replayOf (runCmds cmds) :=
    replayJournal_encJournal _ hsmall _ hW
  refine ⟨fun st => ⟨rfl, rfl, rfl⟩, fun r c => step_next_id_mono r.state c, ?_, ?_⟩
  · rw [hrj]
    exact hN
  · intro n hn
    have hb := hW _ hn
    rw [hrj, hN]
    exact hb

/-- C8 counterexample: the login allocated id 1 and journaled
`UPDATE_ID 1`, but replay of the corrupted journal stops at the stray
quote, leaving the recovered counter at 0 — below the allocated id. -/
theorem C8_counterexample :
    JRec.updateId 1 ∈ (runCmds c8cmds).recs ∧
    (replayJournal (encJournal (runCmds c8cmds).recs)).next_id < 1 := by
  decide

theorem C8_witness :
    ((∀ c ∈ c8wit, wfCmd c) ∧ (runCmds c8wit).state.next_id < 2 ^ 31) ∧
    ((∀ st : SState, (get_next_id st).1 = st.next_id + 1 ∧
      (get_next_id st).2.1.next_id = st.next_id + 1 ∧
      (get_next_id st).2.2 = .updateId (st.next_id + 1)) ∧
    (∀ (r : Run) (c : Cmd), r.state.next_id ≤ (stepRun r c).state.next_id) ∧
    (replayJournal (encJournal (runCmds c8wit).recs)).next_id =
      (runCmds c8wit).state.next_id ∧
    (∀ n, JRec.updateId n ∈ (runCmds c8wit).recs →
      n ≤ (replayJournal (encJournal (runCmds c8wit).recs)).next_id)) :=
  ⟨⟨by decide, by decide⟩, C8_counter_monotone c8wit (by decide) (by decide)⟩

/-! Claim C9. -/

/-- C9 (amended): the live store never holds two users with the same
name — registration is the only operation that adds a user and it
refuses any name that already resolves — and for wellformed runs
(journal-safe wire inputs, counter below 2^31) recovery rebuilds exactly
the live name list, so uniqueness survives a restart too.  However the
empty name is accepted (`C9_counterexample`), so names need not be
non-empty; and for arbitrary runs replay can duplicate a name (a stray
quote truncates it at recovery). -/
theorem C9_names_unique (cmds : List Cmd)
    (hwf : ∀ c ∈ cmds, wfCmd c)
    (hsmall : (runCmds cmds).state.next_id < 2 ^ 31) :
    (∀ cs : List Cmd, ((runCmds cs).state.users.map (fun u => u.name)).Nodup) ∧
    (replayJournal (encJournal (runCmds cmds).recs)).users.map (fun u => u.name) =
      (runCmds cmds).state.users.map (fun u => u.name) ∧
    ((replayJournal (encJournal (runCmds cmds).recs)).users.map
      (fun u => u.name)).Nodup := by
  obtain ⟨hU, _, _, _, hW, _, _, _⟩ :=
    sim_run ((runCmds cmds).state.next_id) hsmall cmds hwf (le_refl _)
  have hrj : replayJournal (encJournal (runCmds cmds).recs) = replayOf (runCmds cmds) :=
    replayJournal_encJournal _ hsmall _ hW
  have heq : (replayJournal (encJournal (runCmds cmds).recs)).users.map
      (fun u => u.name) = (runCmds cmds).state.users.map (fun u => u.name) := by
    rw [hrj, hU, map_name_map_freshUser]
  exact ⟨runCmds_names_nodup, heq, heq ▸ runCmds_names_nodup cmds⟩

/-- C9 counterexample: `REGISTER` with the empty payload succeeds — the
server never checks for a non-empty name — so the store holds a user
whose name is `""`, contradicting the non-empty-name part of the
claim. -/
theorem C9_counterexample :
    "" ∈ (runCmds [Cmd.register 0 ""]).state.users.map (fun u => u.name) := by
  decide

theorem C9_witness :
    ((∀ c ∈ c9wit, wfCmd c) ∧ (runCmds c9wit).state.next_id < 2 ^ 31) ∧
    ((∀ cs : List Cmd, ((runCmds cs).state.users.map (fun u => u.name)).Nodup) ∧
    (replayJournal (encJournal (runCmds c9wit).recs)).users.map (fun u => u.name) =
      (runCmds c9wit).state.users.map (fun u => u.name) ∧
    ((replayJournal (encJournal (runCmds c9wit).recs)).users.map
      (fun u => u.name)).Nodup) :=
  ⟨⟨by decide, by decide⟩, C9_names_unique c9wit (by decide) (by decide)⟩

end Chat
